import Mathlib

/-!
# chef-analyze: node aggregation and report formatters

A shallow embedding of `pkg/reporting/nodes.go`, `pkg/formatter/csv.go` and
`pkg/formatter/txt.go`.

Conventions of the embedding:

* a Go `string` is a Lean `String`;
* a Go slice is a `List` (a nil slice and an empty slice are both `[]`, the
  code only ever takes `len` of them or ranges over them);
* a Go function that can hit a run-time panic returns an `Option`, and `none`
  is the panic;
* a Go `error` is `Option GoError`, `none` being the nil error;
* a pointer to a record is the record itself, a pointer that may be nil and is
  tested for nil is an `Option`.
-/

namespace ChefAnalyze

/-! ## Go run-time values -/

/-- Go error values: a plain error, which wraps nothing (one made by
`errors.New`), and the two layers `github.com/pkg/errors` puts around an
error: `withMessage`, which keeps the wrapped error and a message, and
`withStack`, which keeps an error and the call stack (the stack is left out). -/
inductive GoError where
  | new (msg : String)
  | withMessage (cause : GoError) (msg : String)
  | withStack (err : GoError)
deriving DecidableEq, Repr

/-- The method `Error()`: a message layer prints as `msg: cause`, a stack layer
prints as the error it keeps. -/
def GoError.Error : GoError → String
  | .new msg => msg
  | .withMessage cause msg => msg ++ ": " ++ cause.Error
  | .withStack err => err.Error

/-- The method `Cause()` of the two layers of `github.com/pkg/errors`: the error
the layer keeps; a plain error has no such method (`none`). -/
def GoError.Cause : GoError → Option GoError
  | .new _ => none
  | .withMessage cause _ => some cause
  | .withStack err => some err

/-- The function `errors.Cause(err)` of `github.com/pkg/errors`: it calls
`Cause()` again and again, as long as the error has that method, and so
returns the innermost error. -/
def errorsCause : GoError → GoError
  | .new msg => .new msg
  | .withMessage cause _ => errorsCause cause
  | .withStack err => errorsCause err

/-- The function `errors.Wrap(err, message)` of `github.com/pkg/errors`: nil for
a nil `err`, otherwise a stack layer around a message layer around `err`. -/
def errorsWrap (err : Option GoError) (message : String) : Option GoError :=
  match err with
  | none => none
  | some e => some (GoError.withStack (GoError.withMessage e message))

/-- A value of type `interface{}` as the search API hands it over: the nil
interface, a string, a number, a boolean, a slice, or a
`map[string]interface{}`. A map value held in an interface is either the nil
map (`nilMap`) or a map with entries; a map with entries is the list of its
entries. -/
inductive Value where
  | nil
  | str (s : String)
  | num (n : Int)
  | bool (b : Bool)
  | arr (xs : List Value)
  | nilMap
  | map (entries : List (String × Value))

/-- A value of static type `map[string]interface{}`. -/
inductive MapVal where
  | nilMap
  | mk (entries : List (String × Value))

/-- The index expression `m[key]` on a list of entries: the value stored under
`key`, the nil interface when there is none. -/
def lookupEntries : List (String × Value) → String → Value
  | [], _ => Value.nil
  | (k, v) :: rest, key => if k = key then v else lookupEntries rest key

/-- The index expression `m[key]`; indexing the nil map gives the zero value. -/
def MapVal.index : MapVal → String → Value
  | .nilMap, _ => Value.nil
  | .mk entries, key => lookupEntries entries key

/-- The comparison `m == nil` for a map. -/
def MapVal.isNil : MapVal → Bool
  | .nilMap => true
  | .mk _ => false

/-- The entries a `range` over the map has to visit; none for the nil map. -/
def MapVal.entries : MapVal → List (String × Value)
  | .nilMap => []
  | .mk entries => entries

/-- The comparison `x == nil` for an interface value: only the nil interface is
equal to nil, an interface holding a nil map is not. -/
def Value.isNil : Value → Bool
  | .nil => true
  | _ => false

/-- The type assertion `x.(map[string]interface{})`; it panics (`none`) when `x`
is the nil interface or holds a value of another type. -/
def assertMap : Value → Option MapVal
  | .nilMap => some MapVal.nilMap
  | .map entries => some (MapVal.mk entries)
  | _ => none

/-- The type assertion `x.(string)`; it panics (`none`) when `x` is the nil
interface or holds a value of another type. -/
def assertString : Value → Option String
  | .str s => some s
  | _ => none

/-- The order in which `range` visits the entries of a map. Go leaves it
unspecified, so it is an input of the run: `visit i m` is the order chosen for
the map ranged over while row `i` is processed, and it is a rearrangement of the
entries. -/
structure MapOrder where
  visit : Nat → List (String × Value) → List (String × Value)
  perm : ∀ i m, (visit i m).Perm m

/-- The order that visits the entries as they are listed. -/
def MapOrder.listed : MapOrder := ⟨fun _ m => m, fun _ _ => List.Perm.refl _⟩

/-- The order that visits the entries last to first. -/
def MapOrder.backwards : MapOrder := ⟨fun _ m => m.reverse, fun _ m => List.reverse_perm m⟩

/-! ## pkg/reporting/nodes.go -/

structure CookbookVersion where
  Name : String
  Version : String
deriving DecidableEq, Repr

/-- The method `CookbookVersion.String`: `fmt.Sprintf("%s(%s)", Name, Version)`. -/
def CookbookVersion.String (cbv : CookbookVersion) : String :=
  cbv.Name ++ "(" ++ cbv.Version ++ ")"

structure NodeReportItem where
  Name : String
  ChefVersion : String
  OS : String
  OSVersion : String
  CookbookVersions : List CookbookVersion
deriving DecidableEq, Repr

/-- The type `chef.SearchResult` of go-chef. -/
structure SearchResult where
  Total : Nat
  Start : Nat
  Rows : List Value

/-- The interface `PartialSearchInterface`: a searcher is its `PartialExec`. -/
structure PartialSearchInterface where
  PartialExec : String → String → List (String × List String) → SearchResult × Option GoError

/-- The configuration `Reporting`; `Nodes` takes it and does not read it. -/
structure Reporting where
  NoSSLVerify : Bool

/-- The method `NodeReportItem.Array`. -/
def NodeReportItem.Array (nri : NodeReportItem) : List String :=
  let cookbooks := nri.CookbookVersions.foldl (fun cookbooks v => cookbooks ++ v.String ++ " ") ""
  [nri.Name, nri.ChefVersion, nri.OS, nri.OSVersion, cookbooks]

/-- The function `safeStringFromMap`. -/
def safeStringFromMap (values : MapVal) (key : String) : Option String :=
  if (values.index key).isNil then some "" else assertString (values.index key)

/-- The partial-search projection `Nodes` asks for. -/
def nodesQuery : List (String × List String) :=
  [("name", ["name"]),
   ("chef_version", ["chef_packages", "chef", "version"]),
   ("os", ["platform"]),
   ("os_version", ["platform_version"]),
   ("cookbooks", ["cookbooks"])]

/-- The inner loop of `Nodes` over the entries of the `cookbooks` map, in the
order they are visited. -/
def cookbookVersionsLoop : List (String × Value) → Option (List CookbookVersion)
  | [] => some []
  | (k, v) :: rest => do
    let inner ← assertMap v
    let version ← safeStringFromMap inner "version"
    let cbvs ← cookbookVersionsLoop rest
    pure (CookbookVersion.mk k version :: cbvs)

/-- The body of the `if v != nil` branch of `Nodes`: the item built from the
data map `v` of one row, `visit` being the order of the `range` over the
cookbooks. -/
def nodeItem (visit : List (String × Value) → List (String × Value)) (v : MapVal) :
    Option NodeReportItem := do
  let name ← safeStringFromMap v "name"
  let os ← safeStringFromMap v "os"
  let osVersion ← safeStringFromMap v "os_version"
  let chefVersion ← safeStringFromMap v "chef_version"
  let item : NodeReportItem := ⟨name, chefVersion, os, osVersion, []⟩
  if (v.index "cookbooks").isNil then
    pure item
  else do
    let cookbooks ← assertMap (v.index "cookbooks")
    let cbvs ← cookbookVersionsLoop (visit cookbooks.entries)
    pure { item with CookbookVersions := cbvs }

/-- The loop of `Nodes` over `pres.Rows`, from row number `i` on. -/
def nodesLoop (order : MapOrder) : Nat → List Value → Option (List NodeReportItem)
  | _, [] => some []
  | i, element :: rest => do
    let row ← assertMap element
    let v ← assertMap (row.index "data")
    if v.isNil then
      nodesLoop order (i + 1) rest
    else do
      let item ← nodeItem (order.visit i) v
      let results ← nodesLoop order (i + 1) rest
      pure (item :: results)

/-- The function `Nodes`. The outer `Option` is `none` when the run panics;
otherwise the pair is the Go return value `([]NodeReportItem, error)`, a nil
slice being `none`. -/
def Nodes (_cfg : Reporting) (searcher : PartialSearchInterface) (order : MapOrder) :
    Option (Option (List NodeReportItem) × Option GoError) :=
  match searcher.PartialExec "node" "*:*" nodesQuery with
  | (_, some err) => some (none, errorsWrap (some err) "unable to get node(s) information")
  | (pres, none) => do
    let results ← nodesLoop order 0 pres.Rows
    pure (some results, none)

/-- Modelled from the spec: the method `NodeReportItem.OSVersionPretty` (its source is not
available). The operating-system text is empty when `OS` is
empty and `"<OS> v<OSVersion>"` otherwise. -/
def NodeReportItem.OSVersionPretty (nri : NodeReportItem) : String :=
  if nri.OS = "" then "" else nri.OS ++ " v" ++ nri.OSVersion

/-- Modelled from the spec: the method `NodeReportItem.CookbooksList` (its source is
not available). It lists the `Name(Version)` token of each cookbook
version, in the order stored. -/
def NodeReportItem.CookbooksList (nri : NodeReportItem) : List String :=
  nri.CookbookVersions.map CookbookVersion.String

/-! ## Cookbook records

The declarations of `CookbooksStatus`, `CookbookRecord`, `CookbookFile` and
`CookstyleOffense` are not available; their fields are the ones the formatters
and their tests use. -/

structure CookstyleOffense where
  CopName : String
  Message : String
  Correctable : Bool
deriving DecidableEq, Repr

structure CookbookFile where
  Path : String
  Offenses : List CookstyleOffense
deriving DecidableEq, Repr

structure CookbookRecord where
  Name : String
  Version : String
  Nodes : List String
  Files : List CookbookFile
  DownloadError : Option GoError
  UsageLookupError : Option GoError
  CookstyleError : Option GoError
deriving DecidableEq, Repr

structure CookbooksStatus where
  Records : List CookbookRecord
  RunCookstyle : Bool
deriving DecidableEq, Repr

/-- Modelled from the spec: the method `CookbookRecord.NumNodesAffected` (its source
is not available): the count of `Nodes`. -/
def CookbookRecord.NumNodesAffected (r : CookbookRecord) : Nat :=
  r.Nodes.length

/-- Modelled from the spec: the method `CookbookRecord.NumOffenses` (its source is
not available): the total number of offenses across all `Files`. -/
def CookbookRecord.NumOffenses (r : CookbookRecord) : Nat :=
  r.Files.foldl (fun n f => n + f.Offenses.length) 0

/-- Modelled from the spec: the method `CookbookRecord.NumCorrectable` (its source is
not available): the count of offenses with `Correctable = true`. -/
def CookbookRecord.NumCorrectable (r : CookbookRecord) : Nat :=
  r.Files.foldl (fun n f => n + (f.Offenses.filter (fun o => o.Correctable)).length) 0

/-- Modelled from the spec: the method `CookbookRecord.Errors` (its source is not
available): the three optional error slots in the fixed order download,
usage lookup, cookstyle, the unset ones left out. -/
def CookbookRecord.Errors (r : CookbookRecord) : List GoError :=
  r.DownloadError.toList ++ r.UsageLookupError.toList ++ r.CookstyleError.toList

/-! ## encoding/csv

The writer of the Go standard library, with its default settings (`Comma` is
`,` and `UseCRLF` is false), as `csv.NewWriter` returns it. The writer is
buffered and flushed once at the end; it is modelled as writing into the string
builder directly. -/

/-- The function `unicode.IsSpace`. -/
def unicodeIsSpace (c : Char) : Bool :=
  c = '\t' || c = '\n' || c = '\x0b' || c = '\x0c' || c = '\r' || c = ' ' ||
  c.toNat = 0x85 || c.toNat = 0xa0 || c.toNat = 0x1680 ||
  (0x2000 ≤ c.toNat && c.toNat ≤ 0x200a) ||
  c.toNat = 0x2028 || c.toNat = 0x2029 || c.toNat = 0x202f || c.toNat = 0x205f ||
  c.toNat = 0x3000

/-- The method `Writer.fieldNeedsQuotes`. -/
def fieldNeedsQuotes (field : String) : Bool :=
  if field = "" then false
  else if field = "\\." then true
  else if field.data.any (fun c => c = '\n' || c = '\r' || c = '"' || c = ',') then true
  else
    match field.data with
    | [] => false
    | r1 :: _ => unicodeIsSpace r1

/-- The body of a quoted field: a double quote is written twice, every other
character (carriage return and line feed included) is written as it is. -/
def csvEscape : List Char → List Char
  | [] => []
  | c :: cs => if c = '"' then '"' :: '"' :: csvEscape cs else c :: csvEscape cs

/-- One field as `Writer.Write` writes it. -/
def csvField (field : String) : String :=
  if fieldNeedsQuotes field then "\"" ++ String.mk (csvEscape field.data) ++ "\"" else field

/-- The loop of `Writer.Write` over the fields of a record, `n` being the index
of the next field and `w` the text written so far. -/
def csvWriteFields (w : String) : Nat → List String → String
  | _, [] => w
  | n, field :: rest =>
    csvWriteFields ((if n > 0 then w ++ "," else w) ++ csvField field) (n + 1) rest

/-- The method `Writer.Write`: the text written so far, followed by the fields
of the record separated by commas, followed by a line feed. -/
def csvWrite (w : String) (record : List String) : String :=
  csvWriteFields w 0 record ++ "\n"

/-- The function `strings.Join`. -/
def stringsJoin : List String → String → String
  | [], _ => ""
  | [a], _ => a
  | a :: b :: rest, sep => a ++ sep ++ stringsJoin (b :: rest) sep

/-- The pieces of a text cut at every occurrence of the character `sep`. -/
def splitChars (sep : Char) : List Char → List (List Char)
  | [] => [[]]
  | c :: cs =>
    if c = sep then [] :: splitChars sep cs
    else
      match splitChars sep cs with
      | [] => [[c]]
      | piece :: pieces => (c :: piece) :: pieces

/-- The function `strings.Split(s, sep)` for a separator of one character. -/
def stringsSplit (s : String) (sep : Char) : List String :=
  (splitChars sep s.data).map String.mk

/-! ## pkg/formatter -/

structure FormattedResult where
  Report : String
  Errors : String
deriving DecidableEq, Repr

/-- Modelled from the spec: the placeholder token that stands for an unknown
value in the plain-text node report (its declaration is not available). -/
def unknownPlaceholder : String := "unknown"

/-- Modelled from the spec: the function `stringOrUnknownPlaceholder` (its source is
not available): the placeholder token for an empty text, the text
itself otherwise. -/
def stringOrUnknownPlaceholder (s : String) : String :=
  if s = "" then unknownPlaceholder else s

/-- The error lines one record adds to the error builder:
`fmt.Sprintf(" - %s (%s): %v\n", record.Name, record.Version, e)` for each `e`
of `record.Errors()`. -/
def writeRecordErrors (errBuilder : String) (record : CookbookRecord) : String :=
  record.Errors.foldl
    (fun eb e => eb ++ (" - " ++ record.Name ++ " (" ++ record.Version ++ "): " ++ e.Error ++ "\n"))
    errBuilder

/-- The row `MakeCookbooksReportCSV` writes for one offense. -/
def offenseRow (record : CookbookRecord) (file : CookbookFile) (offense : CookstyleOffense)
    (nodesString : String) : List String :=
  let row := [record.Name, record.Version, file.Path, offense.CopName, "N", offense.Message,
    nodesString]
  if offense.Correctable then row.set 4 "Y" else row

/-- The body of the loop of `MakeCookbooksReportCSV` over `state.Records`; the
state is the pair of the report builder and the error builder. -/
def cookbooksCSVStep (runCookstyle : Bool) (b : String × String) (record : CookbookRecord) :
    String × String :=
  let nodesString :=
    if record.NumNodesAffected ≠ 0 then stringsJoin record.Nodes " " else "None"
  let strBuilder :=
    if runCookstyle then
      record.Files.foldl
        (fun w file =>
          if file.Offenses.length = 0 then w
          else file.Offenses.foldl
            (fun w offense => csvWrite w (offenseRow record file offense nodesString)) w)
        b.1
    else
      csvWrite b.1 [record.Name, record.Version, nodesString]
  (strBuilder, writeRecordErrors b.2 record)

/-- The header row of `MakeCookbooksReportCSV`. -/
def cookbooksTableHeaders (runCookstyle : Bool) : List String :=
  let tableHeaders := ["Cookbook Name", "Version"]
  let tableHeaders :=
    if runCookstyle then
      tableHeaders ++ ["File", "Offense", "Automatically Correctable", "Message"]
    else tableHeaders
  tableHeaders ++ ["Nodes"]

/-- The function `MakeCookbooksReportCSV`; `none` is the nil pointer. -/
def MakeCookbooksReportCSV (state : Option CookbooksStatus) : FormattedResult :=
  match state with
  | none => ⟨"", ""⟩
  | some state =>
    if state.Records.length = 0 then ⟨"", ""⟩
    else
      let strBuilder := csvWrite "" (cookbooksTableHeaders state.RunCookstyle)
      let b := state.Records.foldl (cookbooksCSVStep state.RunCookstyle) (strBuilder, "")
      ⟨b.1, b.2⟩

/-- The body of the loop of `MakeNodesReportCSV` over the records. -/
def nodesCSVStep (w : String) (record : NodeReportItem) : String :=
  let cookbooksList := record.CookbooksList
  let cookbooksString :=
    if cookbooksList.length ≠ 0 then stringsJoin cookbooksList " " else "None"
  csvWrite w [record.Name, record.ChefVersion, record.OSVersionPretty, cookbooksString]

/-- The header row of `MakeNodesReportCSV`. -/
def nodesTableHeaders : List String :=
  ["Node Name", "Chef Version", "Operating System", "Cookbooks"]

/-- The function `MakeNodesReportCSV`. -/
def MakeNodesReportCSV (records : List NodeReportItem) : FormattedResult :=
  if records.length = 0 then ⟨"", ""⟩
  else
    let strBuilder := csvWrite "" nodesTableHeaders
    ⟨records.foldl nodesCSVStep strBuilder, ""⟩

/-- The text `MakeCookbooksReportTXT` writes for the files of a record when
cookstyle was run. -/
def cookbooksTXTFiles (w : String) (files : List CookbookFile) : String :=
  files.foldl
    (fun w f =>
      if f.Offenses.length = 0 then w
      else f.Offenses.foldl
        (fun w o =>
          w ++ ("\n\t" ++ o.CopName ++ " (" ++ toString o.Correctable ++ ") " ++ o.Message))
        (w ++ ("\n   - " ++ f.Path ++ ":")))
    w

/-- The body of the loop of `MakeCookbooksReportTXT` over `state.Records`. -/
def cookbooksTXTStep (runCookstyle : Bool) (b : String × String) (record : CookbookRecord) :
    String × String :=
  let sb := b.1 ++ ("> Cookbook: " ++ record.Name ++ " (" ++ record.Version ++ ")\n")
  let sb :=
    if record.NumNodesAffected = 0 then sb ++ "  Nodes affected: none\n"
    else sb ++ "  Nodes affected: " ++ stringsJoin record.Nodes ", " ++ "\n"
  let sb :=
    if runCookstyle then
      let sb := sb ++ ("  Violations: " ++ toString record.NumOffenses ++ "\n")
      let sb := sb ++ ("  Auto correctable: " ++ toString record.NumCorrectable ++ "\n")
      let sb := sb ++ "  Files and offenses:"
      let sb := cookbooksTXTFiles sb record.Files
      if record.NumOffenses = 0 then sb ++ " none\n" else sb ++ "\n"
    else sb
  (sb, writeRecordErrors b.2 record)

/-- The function `MakeCookbooksReportTXT`; `none` is the nil pointer. -/
def MakeCookbooksReportTXT (state : Option CookbooksStatus) : FormattedResult :=
  match state with
  | none => ⟨"", ""⟩
  | some state =>
    if state.Records.length = 0 then ⟨"", ""⟩
    else
      let b := state.Records.foldl (cookbooksTXTStep state.RunCookstyle) ("", "")
      ⟨b.1, b.2⟩

/-- The body of the loop of `MakeNodesReportTXT` over the records. -/
def nodesTXTStep (w : String) (record : NodeReportItem) : String :=
  let w := w ++ ("> Node: " ++ record.Name ++ "\n")
  let w := w ++ ("  Chef Version: " ++ stringOrUnknownPlaceholder record.ChefVersion ++ "\n")
  let w := w ++
    ("  Operating System: " ++ stringOrUnknownPlaceholder record.OSVersionPretty ++ "\n")
  if record.CookbooksList.length = 0 then w ++ "  Cookbooks Applied: none\n"
  else w ++ "  Cookbooks Applied: " ++ stringsJoin record.CookbooksList ", " ++ "\n"

/-- The function `MakeNodesReportTXT`. -/
def MakeNodesReportTXT (records : List NodeReportItem) : FormattedResult :=
  if records.length = 0 then ⟨"", ""⟩
  else ⟨records.foldl nodesTXTStep "", ""⟩

/-! ## Shapes of search rows

The rows `Nodes` can process without a failed type assertion. -/

/-- The data map of a row: `element.(map[string]interface{})["data"]` asserted
to be a map, as `Nodes` does at the head of its loop. -/
def rowData (element : Value) : Option MapVal :=
  (assertMap element).bind fun row => assertMap (row.index "data")

/-- A field value is missing, null or a string. -/
def Value.isStringOrNil : Value → Bool
  | .nil => true
  | .str _ => true
  | _ => false

/-- An entry of the `cookbooks` mapping holds a mapping whose `version` is
missing, null or a string. -/
def cookbookEntryShaped (entry : String × Value) : Bool :=
  match assertMap entry.2 with
  | none => false
  | some inner => (inner.index "version").isStringOrNil

/-- The `cookbooks` field is missing, null or a mapping of shaped entries. -/
def cookbooksShaped : Value → Bool
  | .nil => true
  | .nilMap => true
  | .map entries => entries.all cookbookEntryShaped
  | _ => false

/-- The data map of a row has the four scalar fields missing, null or strings
and a shaped `cookbooks` field. -/
def dataShaped (v : MapVal) : Bool :=
  (v.index "name").isStringOrNil && (v.index "os").isStringOrNil &&
  (v.index "os_version").isStringOrNil && (v.index "chef_version").isStringOrNil &&
  cookbooksShaped (v.index "cookbooks")

/-- The row is a mapping whose `data` is a map of the shape above. -/
def rowShaped (element : Value) : Bool :=
  match rowData element with
  | none => false
  | some v => dataShaped v

/-- The text the spec gives a scalar field: the string itself, and the empty
string for a missing or null field. -/
def fieldOrEmpty : Value → String
  | .str s => s
  | _ => ""

/-- The cookbook version the spec gives one entry of the `cookbooks` mapping:
the key as name, the `version` of the nested mapping as version. -/
def specCookbookVersion (entry : String × Value) : CookbookVersion :=
  match assertMap entry.2 with
  | some inner => ⟨entry.1, fieldOrEmpty (inner.index "version")⟩
  | none => ⟨entry.1, ""⟩

/-- The cookbook versions the spec gives a `cookbooks` field whose entries are
visited in the order `visit`. -/
def specCookbookVersions (visit : List (String × Value) → List (String × Value)) :
    Value → List CookbookVersion
  | .map entries => (visit entries).map specCookbookVersion
  | _ => []

/-- The item the spec gives a data map. -/
def specNodeItem (visit : List (String × Value) → List (String × Value)) (v : MapVal) :
    NodeReportItem :=
  { Name := fieldOrEmpty (v.index "name")
    ChefVersion := fieldOrEmpty (v.index "chef_version")
    OS := fieldOrEmpty (v.index "os")
    OSVersion := fieldOrEmpty (v.index "os_version")
    CookbookVersions := specCookbookVersions visit (v.index "cookbooks") }

/-- The name the spec gives the item of a row: the `name` field of its data
map. -/
def specRowName (element : Value) : String :=
  match rowData element with
  | some v => fieldOrEmpty (v.index "name")
  | none => ""

/-! ## Sample search responses -/

/-- A searcher whose `PartialExec` answers every query with the given rows and
no error. -/
def searcherReturning (rows : List Value) : PartialSearchInterface :=
  ⟨fun _ _ _ => (⟨rows.length, 0, rows⟩, none)⟩

/-- A searcher whose `PartialExec` fails with the given error. -/
def searcherFailing (e : GoError) : PartialSearchInterface :=
  ⟨fun _ _ _ => (⟨0, 0, []⟩, some e)⟩

/-- An error that is itself wrapped: `errors.Wrap(errors.New("401 unauthorized"),
"search failed")`. -/
def sampleWrappedError : GoError :=
  .withStack (.withMessage (.new "401 unauthorized") "search failed")

/-- A row with every field present. -/
def rowFull : Value :=
  .map [("url", .str "https://chef.example/nodes/web1"),
    ("data", .map [("name", .str "web1"), ("chef_version", .str "15.0.300"),
      ("os", .str "ubuntu"), ("os_version", .str "18.04"),
      ("cookbooks", .map [("apache", .map [("version", .str "1.0.1")]),
        ("ntp", .map [("version", .str "3.2.0")])])])]

/-- A row with fields missing or null, and a cookbook without a version. -/
def rowSparse : Value :=
  .map [("data", .map [("name", .str "db1"), ("chef_version", .nil),
      ("cookbooks", .map [("postgres", .map [])])])]

/-- A row with no cookbooks at all. -/
def rowBare : Value :=
  .map [("data", .map [("name", .str "cache1"), ("os", .str "windows"),
      ("os_version", .str "10.1")])]

/-- A row with no `data` key. -/
def rowNoData : Value :=
  .map [("url", .str "https://chef.example/nodes/hidden")]

/-- A row whose `data` is null. -/
def rowNullData : Value :=
  .map [("url", .str "https://chef.example/nodes/hidden"), ("data", .nil)]

/-- A row whose `os_version` is a number. -/
def rowNumericOsVersion : Value :=
  .map [("data", .map [("name", .str "web2"), ("os", .str "centos"), ("os_version", .num 7)])]

/-- A row whose `name` is a number. -/
def rowNumericName : Value :=
  .map [("data", .map [("name", .num 5)])]

/-- A row whose `cookbooks` is a list, not a mapping. -/
def rowCookbooksList : Value :=
  .map [("data", .map [("name", .str "web3"), ("cookbooks", .arr [.str "apache"])])]

/-! ## Rows of the cookbook CSV report, as the spec lists them -/

/-- The texts of a list, one after the other. -/
def concatStrings : List String → String
  | [] => ""
  | s :: rest => s ++ concatStrings rest

/-- The text of a sequence of CSV records: each record as `Writer.Write` writes
it, one after the other. -/
def specCSV (rows : List (List String)) : String :=
  concatStrings (rows.map (csvWrite ""))

/-- The `Nodes` column: the node names joined by a single space, or the literal
`None` when the record has no nodes. -/
def specNodesColumn (record : CookbookRecord) : String :=
  if record.Nodes = [] then "None" else stringsJoin record.Nodes " "

/-- The row of a record when cookstyle was not run. -/
def specRecordRow (record : CookbookRecord) : List String :=
  [record.Name, record.Version, specNodesColumn record]

/-- The row of one offense when cookstyle was run. -/
def specOffenseRow (record : CookbookRecord) (file : CookbookFile)
    (offense : CookstyleOffense) : List String :=
  [record.Name, record.Version, file.Path, offense.CopName,
    if offense.Correctable then "Y" else "N", offense.Message, specNodesColumn record]

/-- The rows of a record when cookstyle was run: one per offense, file by file
and offense by offense in stored order. -/
def specOffenseRows (record : CookbookRecord) : List (List String) :=
  record.Files.flatMap fun file => file.Offenses.map (specOffenseRow record file)

/-- The detail rows of a record. -/
def specCookbookRows (runCookstyle : Bool) (record : CookbookRecord) : List (List String) :=
  if runCookstyle then specOffenseRows record else [specRecordRow record]

/-- The error lines of a record, as the spec lists them. -/
def specRecordErrors (record : CookbookRecord) : String :=
  concatStrings (record.Errors.map fun e =>
    " - " ++ record.Name ++ " (" ++ record.Version ++ "): " ++ e.Error ++ "\n")

/-! ## Lines of the CSV reports -/

/-- The number of line feeds in a text. -/
def lineFeeds (s : String) : Nat :=
  s.data.count '\n'

/-- The row of a node in the CSV report, as the spec lists it. -/
def specNodeRow (record : NodeReportItem) : List String :=
  [record.Name, record.ChefVersion, record.OSVersionPretty,
    if record.CookbookVersions = [] then "None" else stringsJoin record.CookbooksList " "]

/-- No field of the node record holds a line feed. -/
def nodeFieldsNoLineFeed (record : NodeReportItem) : Prop :=
  lineFeeds record.Name = 0 ∧ lineFeeds record.ChefVersion = 0 ∧ lineFeeds record.OS = 0 ∧
  lineFeeds record.OSVersion = 0 ∧
  ∀ cbv ∈ record.CookbookVersions, lineFeeds cbv.Name = 0 ∧ lineFeeds cbv.Version = 0

/-- No field of the cookbook record that the report shows holds a line feed;
the files and offenses are shown only when cookstyle was run. -/
def cookbookFieldsNoLineFeed (runCookstyle : Bool) (record : CookbookRecord) : Prop :=
  lineFeeds record.Name = 0 ∧ lineFeeds record.Version = 0 ∧
  (∀ node ∈ record.Nodes, lineFeeds node = 0) ∧
  (runCookstyle = true → ∀ file ∈ record.Files, lineFeeds file.Path = 0 ∧
    ∀ offense ∈ file.Offenses, lineFeeds offense.CopName = 0 ∧ lineFeeds offense.Message = 0)

instance (record : NodeReportItem) : Decidable (nodeFieldsNoLineFeed record) := by
  unfold nodeFieldsNoLineFeed
  infer_instance

instance (runCookstyle : Bool) (record : CookbookRecord) :
    Decidable (cookbookFieldsNoLineFeed runCookstyle record) := by
  unfold cookbookFieldsNoLineFeed
  infer_instance

/-- The node records of `TestMakeNodesReportCSV_WithRecords`. -/
def sampleNodes : List NodeReportItem :=
  [⟨"node1", "12.22", "windows", "10.1", [⟨"mycookbook", "1.0"⟩]⟩,
   ⟨"node2", "13.11", "", "", [⟨"mycookbook", "1.0"⟩, ⟨"test", "9.9"⟩]⟩,
   ⟨"node3", "15.00", "ubuntu", "16.04", []⟩]

/-- Cookbook records with files and offenses, one of the files without any
offense. -/
def sampleRecords : List CookbookRecord :=
  [⟨"my-cookbook", "1.0", ["node-1", "node-2"],
      [⟨"/path/to/file.rb", [⟨"ChefDeprecations/Blah", "some description", true⟩,
        ⟨"ChefStyle/Other", "another one", false⟩]⟩, ⟨"/path/to/clean.rb", []⟩],
      none, none, none⟩,
   ⟨"their-cookbook", "1.1", [], [⟨"recipes/default.rb", [⟨"ChefModernize/Old", "old, very", false⟩]⟩],
      none, some (.new "could not look up usage"), none⟩]

/-! ## The plain-text cookbook report and the error text, as the spec lists them -/

/-- The text of one error line: ` - <Name> (<Version>): <error message>`. -/
def specErrorText (record : CookbookRecord) (e : GoError) : String :=
  " - " ++ record.Name ++ " (" ++ record.Version ++ "): " ++ e.Error

/-- One error line: its text and a line feed. -/
def specErrorLine (record : CookbookRecord) (e : GoError) : String :=
  specErrorText record e ++ "\n"

/-- The record has exactly one of its three error slots set, to `e`. -/
def oneErrorSlot (record : CookbookRecord) (e : GoError) : Prop :=
  (record.DownloadError = some e ∧ record.UsageLookupError = none ∧
    record.CookstyleError = none) ∨
  (record.DownloadError = none ∧ record.UsageLookupError = some e ∧
    record.CookstyleError = none) ∨
  (record.DownloadError = none ∧ record.UsageLookupError = none ∧
    record.CookstyleError = some e)

instance (record : CookbookRecord) (e : GoError) : Decidable (oneErrorSlot record e) := by
  unfold oneErrorSlot
  infer_instance

/-- The text `part` occurs in `text`. -/
def containsText (text part : String) : Prop :=
  ∃ before after : String, text = before ++ part ++ after

/-- The first line of a cookbook block. -/
def specTXTHeader (record : CookbookRecord) : String :=
  "> Cookbook: " ++ record.Name ++ " (" ++ record.Version ++ ")\n"

/-- The line of a cookbook block on the nodes affected. -/
def specTXTNodes (record : CookbookRecord) : String :=
  if record.Nodes = [] then "  Nodes affected: none\n"
  else "  Nodes affected: " ++ stringsJoin record.Nodes ", " ++ "\n"

/-- The line of one offense in the listing of a cookbook block. -/
def specTXTOffense (o : CookstyleOffense) : String :=
  "\n\t" ++ o.CopName ++ " (" ++ toString o.Correctable ++ ") " ++ o.Message

/-- The entry of one file in the listing of a cookbook block: its path and
one line per offense. -/
def specTXTFile (f : CookbookFile) : String :=
  "\n   - " ++ f.Path ++ ":" ++ concatStrings (f.Offenses.map specTXTOffense)

/-- The files that have at least one offense. -/
def filesWithOffenses (files : List CookbookFile) : List CookbookFile :=
  files.filter fun f => f.Offenses ≠ []

/-- The listing of a cookbook block: one entry per file that has at least one
offense, in stored order. -/
def specTXTListing (files : List CookbookFile) : String :=
  concatStrings ((filesWithOffenses files).map specTXTFile)

/-- The part of a cookbook block that is written when cookstyle was run. -/
def specTXTCookstyle (record : CookbookRecord) : String :=
  "  Violations: " ++ toString record.NumOffenses ++ "\n" ++
  ("  Auto correctable: " ++ toString record.NumCorrectable ++ "\n") ++
  "  Files and offenses:" ++ specTXTListing record.Files ++
  (if record.NumOffenses = 0 then " none\n" else "\n")

/-- The block of a cookbook in the plain-text report. -/
def specTXTBlock (runCookstyle : Bool) (record : CookbookRecord) : String :=
  specTXTHeader record ++ specTXTNodes record ++
  (if runCookstyle then specTXTCookstyle record else "")

/-- The records of `TestMakeCookbooksReportCSV_ErrorReport`. -/
def sampleErrorRecords : List CookbookRecord :=
  [⟨"my-cookbook", "1.0", [], [], some (.new "could not download"), none, none⟩,
   ⟨"their-cookbook", "1.1", [], [], none, some (.new "could not look up usage"), none⟩,
   ⟨"our-cookbook", "1.2", [], [], none, none, some (.new "cookstyle error")⟩]

/-- A record whose cookstyle run failed: it has nodes, an error and no files. -/
def sampleFailedRecord : CookbookRecord :=
  ⟨"my-cookbook", "1.0", ["node-1", "node-2"], [], none, none, some (.new "cookstyle error")⟩

/-- A record whose usage lookup failed: it has an offense, an error and no
nodes. -/
def sampleUsageRecord : CookbookRecord :=
  ⟨"their-cookbook", "1.1", [], [⟨"recipes/default.rb", [⟨"ChefModernize/Old", "old, very", false⟩]⟩],
    none, some (.new "could not look up usage"), none⟩

/-- The block of a node in the plain-text report, as the spec lists it. -/
def specNodeBlock (record : NodeReportItem) : String :=
  "> Node: " ++ record.Name ++ "\n" ++
  ("  Chef Version: " ++
    (if record.ChefVersion = "" then unknownPlaceholder else record.ChefVersion) ++ "\n") ++
  ("  Operating System: " ++
    (if record.OS = "" then unknownPlaceholder
      else record.OS ++ " v" ++ record.OSVersion) ++ "\n") ++
  (if record.CookbookVersions = [] then "  Cookbooks Applied: none\n"
    else "  Cookbooks Applied: " ++
      stringsJoin (record.CookbookVersions.map CookbookVersion.String) ", " ++ "\n")

/-! ## encoding/csv, the reader

The reader of the Go standard library with its default settings (`Comma` is
`,`, no comment character, `FieldsPerRecord` 0, `LazyQuotes` and
`TrimLeadingSpace` false), read to the end with `ReadAll`. The reader takes the
text line by line; `readLine` drops a carriage return that stands directly
before a line feed, and a carriage return that ends the text, before the line
is parsed. The model applies this to the whole text first and then parses it
character by character. -/

/-- The normalisation `readLine` applies to every line: a carriage return
directly before a line feed is dropped, and so is a carriage return at the
very end of the text. -/
def csvNormalize : List Char → List Char
  | [] => []
  | [c] => if c = '\r' then [] else [c]
  | c :: d :: rest =>
    if c = '\r' ∧ d = '\n' then '\n' :: csvNormalize rest
    else c :: csvNormalize (d :: rest)

/-- Where the reader stands in a record: at the start of a line, at the start
of a field after a comma, inside a field without quotes, inside a quoted
field, or just after a double quote met inside a quoted field. -/
inductive ReaderState where
  | recordStart
  | fieldStart
  | unquoted
  | quoted
  | quoteSeen
deriving DecidableEq, Repr

/-- The end of a record: with `FieldsPerRecord` 0 the first record fixes the
number of fields, and a later record with another number of fields is the
error `ErrFieldCount` (`none`). -/
def csvEndRecord (records : List (List String)) (record : List String) :
    Option (List (List String)) :=
  match records with
  | [] => some [record]
  | first :: _ => if first.length = record.length then some (records ++ [record]) else none

/-- The parse of the normalised text: `field` is the text of the field being
read, `record` the fields of the record being read, `records` the records read
so far. An empty line is skipped; a double quote inside a field without quotes
(`ErrBareQuote`), a character other than a comma, a double quote or the end of
the line after the closing quote of a quoted field, and a quoted field that is
not closed (`ErrQuote`) are errors (`none`). -/
def csvParse : ReaderState → List Char → List String → List (List String) → List Char →
    Option (List (List String))
  | .recordStart, _, _, records, [] => some records
  | .recordStart, _, _, records, c :: rest =>
    if c = '\n' then csvParse .recordStart [] [] records rest
    else if c = '"' then csvParse .quoted [] [] records rest
    else if c = ',' then csvParse .fieldStart [] [""] records rest
    else csvParse .unquoted [c] [] records rest
  | .fieldStart, _, record, records, [] => csvEndRecord records (record ++ [""])
  | .fieldStart, _, record, records, c :: rest =>
    if c = '\n' then
      match csvEndRecord records (record ++ [""]) with
      | none => none
      | some records => csvParse .recordStart [] [] records rest
    else if c = '"' then csvParse .quoted [] record records rest
    else if c = ',' then csvParse .fieldStart [] (record ++ [""]) records rest
    else csvParse .unquoted [c] record records rest
  | .unquoted, field, record, records, [] =>
    csvEndRecord records (record ++ [String.mk field])
  | .unquoted, field, record, records, c :: rest =>
    if c = '\n' then
      match csvEndRecord records (record ++ [String.mk field]) with
      | none => none
      | some records => csvParse .recordStart [] [] records rest
    else if c = '"' then none
    else if c = ',' then csvParse .fieldStart [] (record ++ [String.mk field]) records rest
    else csvParse .unquoted (field ++ [c]) record records rest
  | .quoted, _, _, _, [] => none
  | .quoted, field, record, records, c :: rest =>
    if c = '"' then csvParse .quoteSeen field record records rest
    else csvParse .quoted (field ++ [c]) record records rest
  | .quoteSeen, field, record, records, [] =>
    csvEndRecord records (record ++ [String.mk field])
  | .quoteSeen, field, record, records, c :: rest =>
    if c = '"' then csvParse .quoted (field ++ ['"']) record records rest
    else if c = ',' then csvParse .fieldStart [] (record ++ [String.mk field]) records rest
    else if c = '\n' then
      match csvEndRecord records (record ++ [String.mk field]) with
      | none => none
      | some records => csvParse .recordStart [] [] records rest
    else none

/-- The method `Reader.ReadAll` on a text: the records of the text, or `none`
when the reader reports an error. -/
def csvReadAll (text : String) : Option (List (List String)) :=
  csvParse .recordStart [] [] [] (csvNormalize text.data)

/-- The text has a carriage return directly followed by a line feed. -/
def hasCRLF : List Char → Bool
  | [] => false
  | [_] => false
  | c :: d :: rest => (c = '\r' ∧ d = '\n') || hasCRLF (d :: rest)

/-- No carriage return of the text stands directly before a line feed or at
the end of the text. -/
def crSafe : List Char → Bool
  | [] => true
  | [c] => !(c = '\r')
  | c :: d :: rest => !(c = '\r' ∧ d = '\n') && crSafe (d :: rest)

/-- The characters `Writer.Write` writes for a record: the fields as
`csvField` gives them, separated by commas, and a line feed. -/
def csvLine : List String → List Char
  | [] => ['\n']
  | [f] => (csvField f).data ++ ['\n']
  | f :: g :: rest => (csvField f).data ++ ',' :: csvLine (g :: rest)

/-! ## cmd/root.go -/

/-- The global flags of the command line. -/
structure GlobalFlags where
  credsFile : String
  clientName : String
  clientKey : String
  chefServerURL : String
  profile : String
  noSSLverify : Bool
deriving DecidableEq, Repr

/-- The type `credentials.Credentials` of go-libs. Its declaration is not
available: the three fields `overrideCredentials` writes are named, and
whatever other fields it has are the field `rest`, of a type that is left
open. -/
structure Credentials (Rest : Type) where
  ClientName : String
  ClientKey : String
  ChefServerUrl : String
  rest : Rest
deriving DecidableEq, Repr

/-- The function returned by `overrideCredentials`, applied to the
credentials `c`; the flags are the value of `globalFlags` when it is applied,
and the credentials after the call are the result. -/
def overrideCredentials {Rest : Type} (globalFlags : GlobalFlags) (c : Credentials Rest) :
    Credentials Rest :=
  let c := if globalFlags.clientName ≠ "" then { c with ClientName := globalFlags.clientName }
    else c
  let c := if globalFlags.clientKey ≠ "" then { c with ClientKey := globalFlags.clientKey }
    else c
  let c :=
    if globalFlags.chefServerURL ≠ "" then { c with ChefServerUrl := globalFlags.chefServerURL }
    else c
  c

/-- Two records agree on their name, version and three error slots. -/
def sameErrorData (r r' : CookbookRecord) : Prop :=
  r.Name = r'.Name ∧ r.Version = r'.Version ∧ r.DownloadError = r'.DownloadError ∧
  r.UsageLookupError = r'.UsageLookupError ∧ r.CookstyleError = r'.CookstyleError

/-! ## Two runs of the node aggregator -/

/-- Two items agree on the four scalar fields and have the same cookbook
versions up to their order. -/
def itemsAgree (a b : NodeReportItem) : Prop :=
  a.Name = b.Name ∧ a.ChefVersion = b.ChefVersion ∧ a.OS = b.OS ∧ a.OSVersion = b.OSVersion ∧
  a.CookbookVersions.Perm b.CookbookVersions

/-- Two outcomes of a step that can panic agree: both are the panic, or both
are results related by `R`. -/
def outcomesAgree {α : Type} (R : α → α → Prop) : Option α → Option α → Prop
  | none, none => True
  | some a, some b => R a b
  | _, _ => False

/-- Three records with one error slot set each, as `sampleErrorRecords`, the
first error message holding a line feed. -/
def sampleLineFeedErrorRecords : List CookbookRecord :=
  [⟨"my-cookbook", "1.0", [], [],
      some (.new "could not download:\nconnection refused"), none, none⟩,
   ⟨"their-cookbook", "1.1", [], [], none, some (.new "could not look up usage"), none⟩,
   ⟨"our-cookbook", "1.2", [], [], none, none, some (.new "cookstyle error")⟩]

/-! ## The empty report -/

/-- Claim C1: each of the four formatters returns the result with an empty
report and an empty error text when its input is nil or has no records; for
the cookbook formatters this is so whatever `RunCookstyle` is. -/
theorem formatters_empty_input (runCookstyle : Bool) :
    MakeCookbooksReportCSV none = ⟨"", ""⟩ ∧
    MakeCookbooksReportCSV (some ⟨[], runCookstyle⟩) = ⟨"", ""⟩ ∧
    MakeCookbooksReportTXT none = ⟨"", ""⟩ ∧
    MakeCookbooksReportTXT (some ⟨[], runCookstyle⟩) = ⟨"", ""⟩ ∧
    MakeNodesReportCSV [] = ⟨"", ""⟩ ∧
    MakeNodesReportTXT [] = ⟨"", ""⟩ := by
  refine ⟨rfl, ?_, rfl, ?_, rfl, rfl⟩ <;> simp [MakeCookbooksReportCSV, MakeCookbooksReportTXT]

/-! ## Lemmas on the node aggregator -/

theorem safeStringFromMap_of_shaped (values : MapVal) (key : String)
    (h : (values.index key).isStringOrNil = true) :
    safeStringFromMap values key = some (fieldOrEmpty (values.index key)) := by
  unfold safeStringFromMap
  cases hv : values.index key <;>
    simp_all [Value.isStringOrNil, Value.isNil, assertString, fieldOrEmpty]

theorem cookbookVersionsLoop_of_shaped (entries : List (String × Value))
    (h : entries.all cookbookEntryShaped = true) :
    cookbookVersionsLoop entries = some (entries.map specCookbookVersion) := by
  induction entries with
  | nil => rfl
  | cons entry rest ih =>
    obtain ⟨k, x⟩ := entry
    simp only [List.all_cons, Bool.and_eq_true] at h
    obtain ⟨hx, hrest⟩ := h
    have hx2 := hx
    unfold cookbookEntryShaped at hx2
    cases hm : assertMap x with
    | none => simp [hm] at hx2
    | some inner =>
      simp only [hm] at hx2
      simp [cookbookVersionsLoop, hm, safeStringFromMap_of_shaped inner "version" hx2,
        ih hrest, specCookbookVersion]

theorem all_shaped_of_perm {l₁ l₂ : List (String × Value)} (hp : l₁.Perm l₂)
    (h : l₂.all cookbookEntryShaped = true) : l₁.all cookbookEntryShaped = true := by
  rw [List.all_eq_true] at h ⊢
  intro x hx
  exact h x (hp.mem_iff.mp hx)

theorem nodeItem_of_shaped (order : MapOrder) (i : Nat) (v : MapVal)
    (h : dataShaped v = true) :
    nodeItem (order.visit i) v = some (specNodeItem (order.visit i) v) := by
  unfold dataShaped at h
  simp only [Bool.and_eq_true] at h
  obtain ⟨⟨⟨⟨hname, hos⟩, hosv⟩, hchef⟩, hcb⟩ := h
  unfold nodeItem
  simp only [safeStringFromMap_of_shaped v _ hname, safeStringFromMap_of_shaped v _ hos,
    safeStringFromMap_of_shaped v _ hosv, safeStringFromMap_of_shaped v _ hchef]
  cases hc : v.index "cookbooks" with
  | nil => simp [Value.isNil, specNodeItem, specCookbookVersions, hc]
  | nilMap =>
    have hv : order.visit i [] = [] := List.Perm.eq_nil (order.perm i [])
    simp [Value.isNil, specNodeItem, specCookbookVersions, hc, assertMap, MapVal.entries, hv,
      cookbookVersionsLoop]
  | map entries =>
    rw [hc] at hcb
    have hall : (order.visit i entries).all cookbookEntryShaped = true :=
      all_shaped_of_perm (order.perm i entries) hcb
    simp [Value.isNil, specNodeItem, specCookbookVersions, hc, assertMap, MapVal.entries,
      cookbookVersionsLoop_of_shaped _ hall]
  | str s => simp [hc, cookbooksShaped] at hcb
  | num n => simp [hc, cookbooksShaped] at hcb
  | bool b => simp [hc, cookbooksShaped] at hcb
  | arr xs => simp [hc, cookbooksShaped] at hcb

theorem nodesLoop_cons (order : MapOrder) (i : Nat) (element : Value) (rest : List Value) :
    nodesLoop order i (element :: rest) =
      match rowData element with
      | none => none
      | some v =>
        if v.isNil then nodesLoop order (i + 1) rest
        else
          match nodeItem (order.visit i) v with
          | none => none
          | some item => (nodesLoop order (i + 1) rest).map (fun results => item :: results) := by
  rw [nodesLoop]
  cases h1 : assertMap element with
  | none => simp [rowData, h1]
  | some row =>
    cases h2 : assertMap (row.index "data") with
    | none => simp [rowData, h1, h2]
    | some v =>
      by_cases hv : v.isNil = true
      · simp [rowData, h1, h2, hv]
      · cases h3 : nodeItem (order.visit i) v with
        | none => simp [rowData, h1, h2, hv, h3]
        | some item =>
          cases h4 : nodesLoop order (i + 1) rest <;> simp [rowData, h1, h2, hv, h3, h4]

theorem nodesLoop_of_shaped (order : MapOrder) (rows : List Value) :
    ∀ i : Nat, rows.all rowShaped = true →
      ∃ results, nodesLoop order i rows = some results ∧ results.length ≤ rows.length := by
  induction rows with
  | nil => intro i _; exact ⟨[], rfl, Nat.le_refl _⟩
  | cons element rest ih =>
    intro i h
    simp only [List.all_cons, Bool.and_eq_true] at h
    obtain ⟨hel, hrest⟩ := h
    obtain ⟨results, hres, hlen⟩ := ih (i + 1) hrest
    rw [nodesLoop_cons]
    unfold rowShaped at hel
    cases hd : rowData element with
    | none => simp [hd] at hel
    | some v =>
      simp only [hd] at hel
      by_cases hv : v.isNil = true
      · refine ⟨results, by simp [hv, hres], ?_⟩
        simp only [List.length_cons]
        omega
      · refine ⟨specNodeItem (order.visit i) v :: results, ?_, ?_⟩
        · simp [hv, nodeItem_of_shaped order i v hel, hres]
        · simp only [List.length_cons]
          omega

theorem nodesLoop_none_of_rowData_none (order : MapOrder) (element : Value)
    (hel : rowData element = none) (rows : List Value) :
    ∀ i : Nat, element ∈ rows → nodesLoop order i rows = none := by
  induction rows with
  | nil => intro i h; simp at h
  | cons first rest ih =>
    intro i h
    rw [nodesLoop_cons]
    rcases List.mem_cons.mp h with heq | hmem
    · subst heq
      simp [hel]
    · have hrest := ih (i + 1) hmem
      cases hd : rowData first with
      | none => rfl
      | some v =>
        by_cases hv : v.isNil = true
        · simp [hv, hrest]
        · cases h3 : nodeItem (order.visit i) v <;> simp [hv, hrest, h3]

theorem nodesLoop_rows_in_order (order : MapOrder) (rows : List Value) :
    ∀ (i : Nat) (results : List NodeReportItem),
      (∀ element ∈ rows, ∃ entries, rowData element = some (MapVal.mk entries)) →
      (nodesLoop order i rows = some results ↔
        results.length = rows.length ∧
        ∀ j entries, (rows[j]?).bind rowData = some (MapVal.mk entries) →
          nodeItem (order.visit (i + j)) (MapVal.mk entries) = results[j]?) := by
  induction rows with
  | nil =>
    intro i results _
    constructor
    · intro h
      simp only [nodesLoop, Option.some.injEq] at h
      subst h
      simp
    · rintro ⟨hlen, -⟩
      simp only [List.length_nil, List.length_eq_zero] at hlen
      subst hlen
      rfl
  | cons element rest ih =>
    intro i results hrows
    obtain ⟨entries, hd⟩ := hrows element (List.mem_cons_self _ _)
    have hrest : ∀ el ∈ rest, ∃ es, rowData el = some (MapVal.mk es) :=
      fun el hel => hrows el (List.mem_cons_of_mem _ hel)
    rw [nodesLoop_cons]
    simp only [hd, MapVal.isNil, Bool.false_eq_true, if_false]
    constructor
    · intro h
      cases h3 : nodeItem (order.visit i) (MapVal.mk entries) with
      | none => simp [h3] at h
      | some item =>
        cases h4 : nodesLoop order (i + 1) rest with
        | none => simp [h3, h4] at h
        | some tail =>
          simp only [h3, h4, Option.map_some', Option.some.injEq] at h
          subst h
          obtain ⟨hlen, hitems⟩ := (ih (i + 1) tail hrest).mp h4
          refine ⟨by simp [hlen], ?_⟩
          intro j es hj
          cases j with
          | zero =>
            simp only [List.getElem?_cons_zero, Option.some_bind, hd, Option.some.injEq,
              MapVal.mk.injEq] at hj
            subst hj
            simpa using h3
          | succ j =>
            simp only [List.getElem?_cons_succ] at hj ⊢
            have hthis := hitems j es hj
            have e : i + 1 + j = i + (j + 1) := by omega
            rw [e] at hthis
            exact hthis
    · rintro ⟨hlen, hitems⟩
      cases results with
      | nil => simp at hlen
      | cons item tail =>
        have h0 := hitems 0 entries (by simp [hd])
        simp only [Nat.add_zero, List.getElem?_cons_zero] at h0
        have htail : nodesLoop order (i + 1) rest = some tail := by
          refine (ih (i + 1) tail hrest).mpr ⟨by simpa using hlen, ?_⟩
          intro j es hj
          have hthis := hitems (j + 1) es (by simpa using hj)
          simp only [List.getElem?_cons_succ] at hthis
          have e : i + 1 + j = i + (j + 1) := by omega
          rw [e]
          exact hthis
        simp [h0, htail]

theorem safeStringFromMap_some (values : MapVal) (key s : String)
    (h : safeStringFromMap values key = some s) : s = fieldOrEmpty (values.index key) := by
  unfold safeStringFromMap at h
  cases hv : values.index key <;>
    simp_all [Value.isNil, assertString, fieldOrEmpty]

theorem nodeItem_some_fields (visit : List (String × Value) → List (String × Value))
    (v : MapVal) (item : NodeReportItem) (h : nodeItem visit v = some item) :
    safeStringFromMap v "name" = some item.Name ∧
    safeStringFromMap v "chef_version" = some item.ChefVersion ∧
    safeStringFromMap v "os" = some item.OS ∧
    safeStringFromMap v "os_version" = some item.OSVersion := by
  unfold nodeItem at h
  cases h1 : safeStringFromMap v "name" with
  | none => simp [h1] at h
  | some name =>
    cases h2 : safeStringFromMap v "os" with
    | none => simp [h1, h2] at h
    | some os =>
      cases h3 : safeStringFromMap v "os_version" with
      | none => simp [h1, h2, h3] at h
      | some osVersion =>
        cases h4 : safeStringFromMap v "chef_version" with
        | none => simp [h1, h2, h3, h4] at h
        | some chefVersion =>
          simp only [h1, h2, h3, h4, Option.bind_eq_bind, Option.some_bind] at h
          by_cases hc : (v.index "cookbooks").isNil = true
          · simp only [hc, if_true] at h
            cases h
            exact ⟨rfl, rfl, rfl, rfl⟩
          · simp only [hc] at h
            cases h5 : assertMap (v.index "cookbooks") with
            | none => simp [h5] at h
            | some cookbooks =>
              cases h6 : cookbookVersionsLoop (visit cookbooks.entries) with
              | none => simp [h5, h6] at h
              | some cbvs =>
                simp [h5, h6] at h
                cases h
                exact ⟨rfl, rfl, rfl, rfl⟩

theorem nodesLoop_names (order : MapOrder) (rows : List Value) :
    ∀ (i : Nat) (results : List NodeReportItem),
      (∀ element ∈ rows, ∃ entries, rowData element = some (MapVal.mk entries)) →
      nodesLoop order i rows = some results →
      results.map (fun item => item.Name) = rows.map specRowName := by
  induction rows with
  | nil =>
    intro i results _ h
    simp only [nodesLoop, Option.some.injEq] at h
    subst h
    rfl
  | cons element rest ih =>
    intro i results hrows h
    obtain ⟨entries, hd⟩ := hrows element (List.mem_cons_self _ _)
    have hrest : ∀ el ∈ rest, ∃ es, rowData el = some (MapVal.mk es) :=
      fun el hel => hrows el (List.mem_cons_of_mem _ hel)
    rw [nodesLoop_cons] at h
    simp only [hd, MapVal.isNil, Bool.false_eq_true, if_false] at h
    cases h3 : nodeItem (order.visit i) (MapVal.mk entries) with
    | none => simp [h3] at h
    | some item =>
      cases h4 : nodesLoop order (i + 1) rest with
      | none => simp [h3, h4] at h
      | some tail =>
        simp only [h3, h4, Option.map_some', Option.some.injEq] at h
        subst h
        have hname := safeStringFromMap_some _ _ _ (nodeItem_some_fields _ _ _ h3).1
        simp [ih (i + 1) tail hrest h4, specRowName, hd, hname]

theorem Nodes_of_exec_ok (cfg : Reporting) (searcher : PartialSearchInterface)
    (order : MapOrder) (pres : SearchResult)
    (hexec : searcher.PartialExec "node" "*:*" nodesQuery = (pres, none)) :
    Nodes cfg searcher order =
      (nodesLoop order 0 pres.Rows).map fun results => (some results, none) := by
  unfold Nodes
  rw [hexec]
  cases h : nodesLoop order 0 pres.Rows <;> simp [h]

theorem Nodes_of_exec_error (cfg : Reporting) (searcher : PartialSearchInterface)
    (order : MapOrder) (pres : SearchResult) (e : GoError)
    (hexec : searcher.PartialExec "node" "*:*" nodesQuery = (pres, some e)) :
    Nodes cfg searcher order =
      some (none, some (GoError.withStack
        (GoError.withMessage e "unable to get node(s) information"))) := by
  unfold Nodes
  rw [hexec]
  rfl

/-! ## The node aggregator -/

/-- Claim C2, as the code has it: when the search call returns without error
and some row is a mapping whose `data` is missing or null, `Nodes` does not
skip the row: the type assertion on the nil value panics and the whole call
is lost, whatever the other rows are. -/
theorem Nodes_absent_data_panics (cfg : Reporting) (searcher : PartialSearchInterface)
    (order : MapOrder) (pres : SearchResult) (element : Value)
    (rowEntries : List (String × Value))
    (hexec : searcher.PartialExec "node" "*:*" nodesQuery = (pres, none))
    (hmem : element ∈ pres.Rows)
    (hrow : element = Value.map rowEntries)
    (hdata : lookupEntries rowEntries "data" = Value.nil) :
    Nodes cfg searcher order = none := by
  have hnone : rowData element = none := by
    subst hrow
    simp [rowData, assertMap, MapVal.index, hdata]
  rw [Nodes_of_exec_ok cfg searcher order pres hexec,
    nodesLoop_none_of_rowData_none order element hnone pres.Rows 0 hmem]
  rfl

theorem Nodes_absent_data_panics_witness :
    Nodes ⟨false⟩ (searcherReturning [rowFull, rowNoData, rowBare]) MapOrder.listed = none ∧
    Nodes ⟨false⟩ (searcherReturning [rowFull, rowNullData, rowBare]) MapOrder.listed = none :=
  ⟨Nodes_absent_data_panics ⟨false⟩ (searcherReturning [rowFull, rowNoData, rowBare])
      MapOrder.listed ⟨3, 0, [rowFull, rowNoData, rowBare]⟩ rowNoData
      [("url", .str "https://chef.example/nodes/hidden")] rfl
      (List.mem_cons_of_mem _ (List.mem_cons_self _ _)) rfl rfl,
   Nodes_absent_data_panics ⟨false⟩ (searcherReturning [rowFull, rowNullData, rowBare])
      MapOrder.listed ⟨3, 0, [rowFull, rowNullData, rowBare]⟩ rowNullData
      [("url", .str "https://chef.example/nodes/hidden"), ("data", .nil)] rfl
      (List.mem_cons_of_mem _ (List.mem_cons_self _ _)) rfl rfl⟩

/-- Claim C3, as stated, fails: the search call returns no error for a row
whose `os_version` is a number, and `Nodes` returns nothing at all, so it does
not return a nil error; and when the search call returns an error `e` that is
itself wrapped, the cause `errors.Cause` gives for the error `Nodes` returns
is the innermost error, not `e`. -/
theorem Nodes_no_error_no_return :
    ((searcherReturning [rowNumericOsVersion]).PartialExec "node" "*:*" nodesQuery).2 = none ∧
    (¬ ∃ results, Nodes ⟨false⟩ (searcherReturning [rowNumericOsVersion]) MapOrder.listed =
      some (results, none)) ∧
    (∃ err, Nodes ⟨false⟩ (searcherFailing sampleWrappedError) MapOrder.listed =
        some (none, some err) ∧
      errorsCause err = .new "401 unauthorized" ∧ errorsCause err ≠ sampleWrappedError) := by
  refine ⟨rfl, ?_, ?_⟩
  · have h : Nodes ⟨false⟩ (searcherReturning [rowNumericOsVersion]) MapOrder.listed = none :=
      rfl
    rw [h]
    simp
  · exact ⟨_, rfl, rfl, by decide⟩

theorem errorsCause_of_root (e : GoError) (h : e.Cause = none) : errorsCause e = e := by
  cases e with
  | new msg => rfl
  | withMessage cause msg => simp [GoError.Cause] at h
  | withStack err => simp [GoError.Cause] at h

/-- Claim C3, amended: when `PartialExec` returns an error `e`, `Nodes` returns
a nil result sequence and an error whose message is
`unable to get node(s) information: ` followed by the message of `e` and which
wraps `e`: it is a stack layer whose `Cause()` is a message layer whose
`Cause()` is `e`, so that the cause `errors.Cause` gives for it is the one it
gives for `e`, which is `e` itself when `e` wraps nothing. When `PartialExec`
returns no error, `Nodes` never returns an error, and it returns, with a nil
error, for every response whose rows are of the shape `rowShaped`. -/
theorem Nodes_error_handling (cfg : Reporting) (searcher : PartialSearchInterface)
    (order : MapOrder) :
    (∀ pres e, searcher.PartialExec "node" "*:*" nodesQuery = (pres, some e) →
      ∃ err, Nodes cfg searcher order = some (none, some err) ∧
        err.Error = "unable to get node(s) information: " ++ e.Error ∧
        (∃ layer, err.Cause = some layer ∧ layer.Cause = some e) ∧
        errorsCause err = errorsCause e ∧
        (e.Cause = none → errorsCause err = e)) ∧
    (∀ pres, searcher.PartialExec "node" "*:*" nodesQuery = (pres, none) →
      (∀ results err, Nodes cfg searcher order = some (results, err) → err = none) ∧
      (pres.Rows.all rowShaped = true →
        ∃ results, Nodes cfg searcher order = some (some results, none))) := by
  refine ⟨?_, ?_⟩
  · intro pres e hexec
    refine ⟨_, Nodes_of_exec_error cfg searcher order pres e hexec, rfl, ⟨_, rfl, rfl⟩, rfl, ?_⟩
    intro hroot
    exact errorsCause_of_root e hroot
  · intro pres hexec
    rw [Nodes_of_exec_ok cfg searcher order pres hexec]
    refine ⟨?_, ?_⟩
    · intro results err h
      cases hl : nodesLoop order 0 pres.Rows with
      | none => simp [hl] at h
      | some items =>
        simp only [hl, Option.map_some', Option.some.injEq, Prod.mk.injEq] at h
        exact h.2.symm
    · intro hshaped
      obtain ⟨results, hres, -⟩ := nodesLoop_of_shaped order pres.Rows 0 hshaped
      exact ⟨results, by simp [hres]⟩

theorem Nodes_error_handling_witness :
    (∃ err, Nodes ⟨false⟩ (searcherFailing (.new "401 unauthorized")) MapOrder.listed =
        some (none, some err) ∧
      err.Error = "unable to get node(s) information: " ++ "401 unauthorized" ∧
      errorsCause err = .new "401 unauthorized") ∧
    (∃ results, Nodes ⟨false⟩ (searcherReturning [rowFull, rowSparse]) MapOrder.listed =
      some (some results, none)) := by
  obtain ⟨err, hret, hmsg, -, -, hroot⟩ :=
    (Nodes_error_handling ⟨false⟩ (searcherFailing (.new "401 unauthorized"))
      MapOrder.listed).1 ⟨0, 0, []⟩ (.new "401 unauthorized") rfl
  exact ⟨⟨err, hret, hmsg, hroot rfl⟩,
    ((Nodes_error_handling ⟨false⟩ (searcherReturning [rowFull, rowSparse])
      MapOrder.listed).2 ⟨2, 0, [rowFull, rowSparse]⟩ rfl).2 (by decide)⟩

/-- Claim C4, as stated, fails: rows that are mappings from field name to value
make `Nodes` panic when `name` is a number, and when `cookbooks` is not a
mapping. -/
theorem Nodes_panics_on_other_types :
    (rowData rowNumericName).isSome = true ∧
    Nodes ⟨false⟩ (searcherReturning [rowNumericName]) MapOrder.listed = none ∧
    (rowData rowCookbooksList).isSome = true ∧
    Nodes ⟨false⟩ (searcherReturning [rowCookbooksList]) MapOrder.listed = none :=
  ⟨rfl, rfl, rfl, rfl⟩

/-- Claim C4, amended: for every search response returned without error whose
rows each carry a `data` map in which `name`, `chef_version`, `os` and
`os_version` are missing, null or strings and `cookbooks` is missing, null or a
mapping to mappings whose `version` is missing, null or a string, `Nodes`
completes and returns a result sequence (of at most one item per row) and no
error. -/
theorem Nodes_completes_on_shaped_rows (cfg : Reporting) (searcher : PartialSearchInterface)
    (order : MapOrder) (pres : SearchResult)
    (hexec : searcher.PartialExec "node" "*:*" nodesQuery = (pres, none))
    (hshaped : pres.Rows.all rowShaped = true) :
    ∃ results, Nodes cfg searcher order = some (some results, none) ∧
      results.length ≤ pres.Rows.length := by
  obtain ⟨results, hres, hlen⟩ := nodesLoop_of_shaped order pres.Rows 0 hshaped
  exact ⟨results, by simp [Nodes_of_exec_ok cfg searcher order pres hexec, hres], hlen⟩

theorem Nodes_completes_on_shaped_rows_witness :
    ∃ results,
      Nodes ⟨false⟩ (searcherReturning [rowSparse, rowBare]) MapOrder.backwards =
        some (some results, none) ∧
      results.length ≤ 2 :=
  Nodes_completes_on_shaped_rows ⟨false⟩ (searcherReturning [rowSparse, rowBare])
    MapOrder.backwards ⟨2, 0, [rowSparse, rowBare]⟩ rfl (by decide)

theorem lookupEntries_of_missing (entries : List (String × Value)) (key : String)
    (h : ∀ entry ∈ entries, entry.1 ≠ key) : lookupEntries entries key = Value.nil := by
  induction entries with
  | nil => rfl
  | cons entry rest ih =>
    obtain ⟨k, x⟩ := entry
    have hk : k ≠ key := h (k, x) (List.mem_cons_self _ _)
    simp only [lookupEntries, hk, if_false]
    exact ih fun e he => h e (List.mem_cons_of_mem _ he)

/-- Claim C5: a scalar field that is missing from the data map of a row, or
null in it, is read as the empty string and a field holding a string is read
as that string, by `safeStringFromMap` and so in the `Name`, `ChefVersion`,
`OS` and `OSVersion` of the item built from the row; reading such a field
never fails, and the item is built whenever the fields of the row are missing,
null or of the expected type. -/
theorem scalar_fields_defensive (order : MapOrder) (i : Nat) (v : MapVal) :
    (∀ entries key, (∀ entry ∈ entries, entry.1 ≠ key) →
      (MapVal.mk entries).index key = Value.nil) ∧
    (∀ key, v.index key = Value.nil → safeStringFromMap v key = some "") ∧
    (∀ key s, v.index key = Value.str s → safeStringFromMap v key = some s) ∧
    (∀ item, nodeItem (order.visit i) v = some item →
      safeStringFromMap v "name" = some item.Name ∧
      safeStringFromMap v "chef_version" = some item.ChefVersion ∧
      safeStringFromMap v "os" = some item.OS ∧
      safeStringFromMap v "os_version" = some item.OSVersion) ∧
    (dataShaped v = true → ∃ item, nodeItem (order.visit i) v = some item) := by
  refine ⟨?_, ?_, ?_, ?_, ?_⟩
  · intro entries key h
    exact lookupEntries_of_missing entries key h
  · intro key h
    simp [safeStringFromMap, h, Value.isNil]
  · intro key s h
    simp [safeStringFromMap, h, Value.isNil, assertString]
  · intro item h
    exact nodeItem_some_fields _ v item h
  · intro h
    exact ⟨_, nodeItem_of_shaped order i v h⟩

theorem scalar_fields_defensive_witness :
    ∃ item,
      nodeItem (MapOrder.listed.visit 0)
        (MapVal.mk [("name", .str "db1"), ("chef_version", .nil), ("os_version", .str "9")]) =
        some item ∧
      item.Name = "db1" ∧ item.ChefVersion = "" ∧ item.OS = "" := by
  obtain ⟨hmiss, hnil, hstr, hfields, hex⟩ := scalar_fields_defensive MapOrder.listed 0
    (MapVal.mk [("name", .str "db1"), ("chef_version", .nil), ("os_version", .str "9")])
  obtain ⟨item, hitem⟩ := hex (by decide)
  obtain ⟨hname, hchef, hos, -⟩ := hfields item hitem
  refine ⟨item, hitem, ?_, ?_, ?_⟩
  · exact Option.some_inj.mp (hname.symm.trans (hstr "name" "db1" rfl))
  · exact Option.some_inj.mp (hchef.symm.trans (hnil "chef_version" rfl))
  · refine Option.some_inj.mp (hos.symm.trans (hnil "os" (hmiss _ "os" ?_)))
    intro entry hentry
    simp only [List.mem_cons, List.mem_singleton, List.not_mem_nil, or_false] at hentry
    rcases hentry with h | h | h <;> subst h <;> decide

/-- Claim C7: when the search call returns without error and every row carries
a data map, `Nodes` returns a result exactly when each row yields its item, and
then the result has as many items as there are rows, its item at position `j`
is the item built from the row at position `j`, and its sequence of names is
the sequence of the `name` fields of the rows; a result is returned for every
response whose rows have fields of the expected types. -/
theorem Nodes_rows_in_order (cfg : Reporting) (searcher : PartialSearchInterface)
    (order : MapOrder) (pres : SearchResult)
    (hexec : searcher.PartialExec "node" "*:*" nodesQuery = (pres, none))
    (hrows : ∀ element ∈ pres.Rows, ∃ entries, rowData element = some (MapVal.mk entries)) :
    (∀ results, Nodes cfg searcher order = some (some results, none) ↔
      results.length = pres.Rows.length ∧
      ∀ j entries, (pres.Rows[j]?).bind rowData = some (MapVal.mk entries) →
        nodeItem (order.visit j) (MapVal.mk entries) = results[j]?) ∧
    (∀ results, Nodes cfg searcher order = some (some results, none) →
      results.map (fun item => item.Name) = pres.Rows.map specRowName) ∧
    (pres.Rows.all rowShaped = true →
      ∃ results, Nodes cfg searcher order = some (some results, none) ∧
        results.length = pres.Rows.length) := by
  have hiff := nodesLoop_rows_in_order order pres.Rows 0
  have hN : ∀ results, Nodes cfg searcher order = some (some results, none) ↔
      nodesLoop order 0 pres.Rows = some results := by
    intro results
    rw [Nodes_of_exec_ok cfg searcher order pres hexec]
    cases hl : nodesLoop order 0 pres.Rows <;> simp
  refine ⟨?_, ?_, ?_⟩
  · intro results
    rw [hN, hiff results hrows]
    simp only [Nat.zero_add]
  · intro results hres
    exact nodesLoop_names order pres.Rows 0 results hrows ((hN results).mp hres)
  · intro hshaped
    obtain ⟨results, hres, -⟩ := nodesLoop_of_shaped order pres.Rows 0 hshaped
    exact ⟨results, (hN results).mpr hres, ((hiff results hrows).mp hres).1⟩

theorem Nodes_rows_in_order_witness :
    ∃ results,
      Nodes ⟨false⟩ (searcherReturning [rowFull, rowSparse, rowBare]) MapOrder.listed =
        some (some results, none) ∧
      results.length = 3 ∧
      results.map (fun item => item.Name) = ["web1", "db1", "cache1"] := by
  have hrows : ∀ element ∈ [rowFull, rowSparse, rowBare],
      ∃ entries, rowData element = some (MapVal.mk entries) := by
    intro element hel
    simp only [List.mem_cons, List.mem_singleton, List.not_mem_nil, or_false] at hel
    rcases hel with h | h | h <;> subst h <;> exact ⟨_, rfl⟩
  have hthm := Nodes_rows_in_order ⟨false⟩ (searcherReturning [rowFull, rowSparse, rowBare])
    MapOrder.listed ⟨3, 0, [rowFull, rowSparse, rowBare]⟩ rfl hrows
  obtain ⟨results, hres, hlen⟩ := hthm.2.2 (by decide)
  exact ⟨results, hres, hlen, hthm.2.1 results hres⟩

/-! ## Lemmas on the CSV writer and the CSV formatters -/

theorem csvWriteFields_append (fields : List String) :
    ∀ (w : String) (n : Nat), csvWriteFields w n fields = w ++ csvWriteFields "" n fields := by
  induction fields with
  | nil => intro w n; simp [csvWriteFields]
  | cons field rest ih =>
    intro w n
    simp only [csvWriteFields]
    rw [ih ((if n > 0 then w ++ "," else w) ++ csvField field),
      ih ((if n > 0 then "" ++ "," else "") ++ csvField field)]
    by_cases hn : n > 0 <;> simp [hn, String.append_assoc]

theorem csvWrite_append (w : String) (record : List String) :
    csvWrite w record = w ++ csvWrite "" record := by
  unfold csvWrite
  rw [csvWriteFields_append record w 0, String.append_assoc]

theorem concatStrings_append (xs ys : List String) :
    concatStrings (xs ++ ys) = concatStrings xs ++ concatStrings ys := by
  induction xs with
  | nil => simp [concatStrings]
  | cons x rest ih => simp [concatStrings, ih, String.append_assoc]

theorem specCSV_append (xs ys : List (List String)) :
    specCSV (xs ++ ys) = specCSV xs ++ specCSV ys := by
  simp [specCSV, concatStrings_append]

theorem specCSV_flatMap {α : Type} (xs : List α) (g : α → List (List String)) :
    specCSV (xs.flatMap g) = concatStrings (xs.map fun x => specCSV (g x)) := by
  induction xs with
  | nil => rfl
  | cons x rest ih => simp [List.flatMap_cons, specCSV_append, concatStrings, ih]

theorem foldl_csvWrite {α : Type} (g : α → List String) (xs : List α) :
    ∀ w : String, xs.foldl (fun w x => csvWrite w (g x)) w = w ++ specCSV (xs.map g) := by
  induction xs with
  | nil => intro w; simp [specCSV, concatStrings]
  | cons x rest ih =>
    intro w
    simp only [List.foldl_cons, List.map_cons]
    rw [ih, csvWrite_append]
    simp [specCSV, concatStrings, String.append_assoc]

theorem foldl_append_text {α : Type} (step : String → α → String) (g : α → String)
    (h : ∀ w x, step w x = w ++ g x) (xs : List α) :
    ∀ w : String, xs.foldl step w = w ++ concatStrings (xs.map g) := by
  induction xs with
  | nil => intro w; simp [concatStrings]
  | cons x rest ih =>
    intro w
    simp only [List.foldl_cons, List.map_cons]
    rw [ih, h]
    simp [concatStrings, String.append_assoc]

theorem foldl_pair_append {α : Type} (step : String × String → α → String × String)
    (g e : α → String)
    (h : ∀ b x, step b x = (b.1 ++ g x, b.2 ++ e x)) (xs : List α) :
    ∀ b : String × String,
      xs.foldl step b = (b.1 ++ concatStrings (xs.map g), b.2 ++ concatStrings (xs.map e)) := by
  induction xs with
  | nil => intro b; simp [concatStrings]
  | cons x rest ih =>
    intro b
    simp only [List.foldl_cons, List.map_cons]
    rw [ih, h]
    simp [concatStrings, String.append_assoc]

theorem offenseRow_eq (record : CookbookRecord) (file : CookbookFile)
    (offense : CookstyleOffense) :
    offenseRow record file offense (specNodesColumn record) =
      specOffenseRow record file offense := by
  unfold offenseRow specOffenseRow
  cases offense.Correctable <;> rfl

theorem nodesString_eq (record : CookbookRecord) :
    (if record.NumNodesAffected ≠ 0 then stringsJoin record.Nodes " " else "None") =
      specNodesColumn record := by
  unfold specNodesColumn CookbookRecord.NumNodesAffected
  cases record.Nodes <;> simp

theorem writeRecordErrors_eq (errBuilder : String) (record : CookbookRecord) :
    writeRecordErrors errBuilder record = errBuilder ++ specRecordErrors record := by
  unfold writeRecordErrors specRecordErrors
  exact foldl_append_text _ _ (fun _ _ => rfl) record.Errors errBuilder

theorem cookbooksCSVStep_eq (runCookstyle : Bool) (b : String × String)
    (record : CookbookRecord) :
    cookbooksCSVStep runCookstyle b record =
      (b.1 ++ specCSV (specCookbookRows runCookstyle record),
        b.2 ++ specRecordErrors record) := by
  unfold cookbooksCSVStep
  simp only [nodesString_eq, writeRecordErrors_eq]
  cases runCookstyle with
  | false =>
    simp only [Bool.false_eq_true, if_false, specCookbookRows, specRecordRow]
    rw [csvWrite_append]
    simp [specCSV, concatStrings]
  | true =>
    simp only [if_true, specCookbookRows, specOffenseRows]
    have hfile : ∀ (w : String) (file : CookbookFile),
        (if file.Offenses.length = 0 then w
          else file.Offenses.foldl
            (fun w offense =>
              csvWrite w (offenseRow record file offense (specNodesColumn record))) w) =
          w ++ specCSV (file.Offenses.map (specOffenseRow record file)) := by
      intro w file
      by_cases hlen : file.Offenses.length = 0
      · have hnil : file.Offenses = [] := List.length_eq_zero.mp hlen
        simp [hnil, specCSV, concatStrings]
      · simp only [hlen, if_false]
        rw [foldl_csvWrite]
        simp only [offenseRow_eq]
    rw [foldl_append_text _ _ hfile record.Files b.1, specCSV_flatMap]

theorem cookbooksCSV_foldl (runCookstyle : Bool) (records : List CookbookRecord)
    (b : String × String) :
    records.foldl (cookbooksCSVStep runCookstyle) b =
      (b.1 ++ specCSV (records.flatMap (specCookbookRows runCookstyle)),
        b.2 ++ concatStrings (records.map specRecordErrors)) := by
  rw [foldl_pair_append _ _ _ (cookbooksCSVStep_eq runCookstyle) records b, specCSV_flatMap]

theorem MakeCookbooksReportCSV_report (runCookstyle : Bool) (records : List CookbookRecord)
    (h : records ≠ []) :
    (MakeCookbooksReportCSV (some ⟨records, runCookstyle⟩)).Report =
      specCSV (cookbooksTableHeaders runCookstyle ::
        records.flatMap (specCookbookRows runCookstyle)) := by
  have hlen : records.length ≠ 0 := fun h0 => h (List.length_eq_zero.mp h0)
  simp only [MakeCookbooksReportCSV, hlen, if_false, cookbooksCSV_foldl]
  simp [specCSV, concatStrings]

theorem specCSV_cons (row : List String) (rows : List (List String)) :
    specCSV (row :: rows) = csvWrite "" row ++ specCSV rows := rfl

theorem foldl_add_length {α : Type} (g : α → Nat) (xs : List α) :
    ∀ n : Nat, xs.foldl (fun n x => n + g x) n = n + (xs.map g).sum := by
  induction xs with
  | nil => intro n; simp
  | cons x rest ih =>
    intro n
    simp only [List.foldl_cons, List.map_cons, List.sum_cons]
    rw [ih]
    omega

theorem specOffenseRows_length (record : CookbookRecord) :
    (specOffenseRows record).length = record.NumOffenses := by
  unfold specOffenseRows CookbookRecord.NumOffenses
  rw [foldl_add_length, List.length_flatMap]
  simp [Function.comp_def]

/-! ## The cookbook CSV report -/

/-- Claim C8: with `RunCookstyle` false and at least one record, the report of
`MakeCookbooksReportCSV` is the header row `Cookbook Name,Version,Nodes`
followed by one row per record, in record order, with the fields `Name`,
`Version` and the nodes column (the node names joined by a single space, or
`None` when there are none); and giving the records any other `Files` does not
change the report. -/
theorem cookbooksCSV_without_cookstyle (records : List CookbookRecord) (h : records ≠ []) :
    (MakeCookbooksReportCSV (some ⟨records, false⟩)).Report =
      "Cookbook Name,Version,Nodes\n" ++
        concatStrings (records.map fun record =>
          csvWrite "" [record.Name, record.Version,
            if record.Nodes = [] then "None" else stringsJoin record.Nodes " "]) ∧
    ∀ files : CookbookRecord → List CookbookFile,
      (MakeCookbooksReportCSV
        (some ⟨records.map (fun record => { record with Files := files record }), false⟩)).Report =
      (MakeCookbooksReportCSV (some ⟨records, false⟩)).Report := by
  have hform : ∀ rs : List CookbookRecord, rs ≠ [] →
      (MakeCookbooksReportCSV (some ⟨rs, false⟩)).Report =
        "Cookbook Name,Version,Nodes\n" ++
          concatStrings (rs.map fun record =>
            csvWrite "" [record.Name, record.Version,
              if record.Nodes = [] then "None" else stringsJoin record.Nodes " "]) := by
    intro rs hrs
    rw [MakeCookbooksReportCSV_report false rs hrs, specCSV_cons, specCSV_flatMap]
    have hheader : csvWrite "" (cookbooksTableHeaders false) = "Cookbook Name,Version,Nodes\n" := by
      decide
    rw [hheader]
    congr 2
    refine List.map_congr_left fun record _ => ?_
    simp [specCookbookRows, specCSV, concatStrings, specRecordRow, specNodesColumn]
  refine ⟨hform records h, ?_⟩
  intro files
  rw [hform records h, hform _ (by simpa using h), List.map_map]
  rfl

theorem cookbooksCSV_without_cookstyle_witness :
    (MakeCookbooksReportCSV (some ⟨[⟨"my-cookbook", "1.0", ["node-1", "node-2"],
        [⟨"/path/to/file.rb", [⟨"ChefDeprecations/Blah", "some description", true⟩]⟩],
        none, none, none⟩], false⟩)).Report =
      "Cookbook Name,Version,Nodes\nmy-cookbook,1.0,node-1 node-2\n" :=
  (cookbooksCSV_without_cookstyle [⟨"my-cookbook", "1.0", ["node-1", "node-2"],
      [⟨"/path/to/file.rb", [⟨"ChefDeprecations/Blah", "some description", true⟩]⟩],
      none, none, none⟩] (by simp)).1.trans (by decide)

/-- Claim C9: with `RunCookstyle` true and at least one record, the report of
`MakeCookbooksReportCSV` is the header row
`Cookbook Name,Version,File,Offense,Automatically Correctable,Message,Nodes`
followed by one row per offense, record by record, file by file and offense by
offense in stored order; the row of an offense is the record's name and
version, the path of the file, the cop name, `Y` for a correctable offense and
`N` otherwise, the message, and the nodes column of the record (the node names
joined by a single space, or `None`). There are as many rows as offenses. -/
theorem cookbooksCSV_with_cookstyle (records : List CookbookRecord) (h : records ≠ []) :
    (MakeCookbooksReportCSV (some ⟨records, true⟩)).Report =
      "Cookbook Name,Version,File,Offense,Automatically Correctable,Message,Nodes\n" ++
        concatStrings
          ((records.flatMap fun record =>
            record.Files.flatMap fun file =>
              file.Offenses.map fun offense =>
                [record.Name, record.Version, file.Path, offense.CopName,
                  if offense.Correctable then "Y" else "N", offense.Message,
                  if record.Nodes = [] then "None" else stringsJoin record.Nodes " "]).map
            (csvWrite "")) ∧
    (records.flatMap fun record =>
        record.Files.flatMap fun file =>
          file.Offenses.map fun offense =>
            [record.Name, record.Version, file.Path, offense.CopName,
              if offense.Correctable then "Y" else "N", offense.Message,
              if record.Nodes = [] then "None" else stringsJoin record.Nodes " "]).length =
      (records.map CookbookRecord.NumOffenses).sum := by
  have hrows : (fun record : CookbookRecord =>
      record.Files.flatMap fun file =>
        file.Offenses.map fun offense =>
          [record.Name, record.Version, file.Path, offense.CopName,
            if offense.Correctable then "Y" else "N", offense.Message,
            if record.Nodes = [] then "None" else stringsJoin record.Nodes " "]) =
      specCookbookRows true := by
    funext record
    rfl
  rw [hrows]
  refine ⟨?_, ?_⟩
  · rw [MakeCookbooksReportCSV_report true records h, specCSV_cons]
    have hheader : csvWrite "" (cookbooksTableHeaders true) =
        "Cookbook Name,Version,File,Offense,Automatically Correctable,Message,Nodes\n" := by
      decide
    rw [hheader]
    rfl
  · rw [List.length_flatMap]
    congr 1
    refine List.map_congr_left fun record _ => ?_
    simp [specCookbookRows, specOffenseRows_length]

theorem cookbooksCSV_with_cookstyle_witness :
    (MakeCookbooksReportCSV (some ⟨[⟨"my-cookbook", "1.0", ["node-1", "node-2"],
        [⟨"/path/to/file.rb", [⟨"ChefDeprecations/Blah", "some description", true⟩,
          ⟨"ChefStyle/Other", "another one", false⟩]⟩, ⟨"/path/to/clean.rb", []⟩],
        none, none, none⟩], true⟩)).Report =
      "Cookbook Name,Version,File,Offense,Automatically Correctable,Message,Nodes\n" ++
      "my-cookbook,1.0,/path/to/file.rb,ChefDeprecations/Blah,Y,some description,node-1 node-2\n" ++
      "my-cookbook,1.0,/path/to/file.rb,ChefStyle/Other,N,another one,node-1 node-2\n" :=
  (cookbooksCSV_with_cookstyle [⟨"my-cookbook", "1.0", ["node-1", "node-2"],
      [⟨"/path/to/file.rb", [⟨"ChefDeprecations/Blah", "some description", true⟩,
        ⟨"ChefStyle/Other", "another one", false⟩]⟩, ⟨"/path/to/clean.rb", []⟩],
      none, none, none⟩] (by simp)).1.trans (by rfl)

theorem lineFeeds_append (a b : String) : lineFeeds (a ++ b) = lineFeeds a + lineFeeds b := by
  simp [lineFeeds, String.data_append, List.count_append]

theorem csvEscape_count (l : List Char) : (csvEscape l).count '\n' = l.count '\n' := by
  induction l with
  | nil => rfl
  | cons c cs ih =>
    unfold csvEscape
    by_cases hc : c = '"'
    · subst hc
      simp [List.count_cons, ih]
    · simp [hc, List.count_cons, ih]

theorem lineFeeds_csvField (field : String) : lineFeeds (csvField field) = lineFeeds field := by
  unfold csvField
  by_cases hq : fieldNeedsQuotes field = true
  · simp only [hq, if_true, lineFeeds_append]
    have h1 : lineFeeds "\"" = 0 := by decide
    have h2 : lineFeeds (String.mk (csvEscape field.data)) = lineFeeds field := by
      simp [lineFeeds, csvEscape_count]
    omega
  · simp [hq]

theorem lineFeeds_csvWriteFields (fields : List String) :
    ∀ (w : String) (n : Nat),
      lineFeeds (csvWriteFields w n fields) = lineFeeds w + (fields.map lineFeeds).sum := by
  induction fields with
  | nil => intro w n; simp [csvWriteFields]
  | cons field rest ih =>
    intro w n
    simp only [csvWriteFields, List.map_cons, List.sum_cons]
    rw [ih, lineFeeds_append, lineFeeds_csvField]
    have hcomma : lineFeeds "," = 0 := by decide
    by_cases hn : n > 0
    · simp only [hn, if_true, lineFeeds_append, hcomma]
      omega
    · simp only [hn, if_false]
      omega

theorem lineFeeds_csvWrite (fields : List String) :
    lineFeeds (csvWrite "" fields) = (fields.map lineFeeds).sum + 1 := by
  unfold csvWrite
  rw [lineFeeds_append, lineFeeds_csvWriteFields]
  have h0 : lineFeeds "" = 0 := by decide
  have h1 : lineFeeds "\n" = 1 := by decide
  omega

theorem sum_eq_zero_of_all_zero (xs : List Nat) (h : ∀ x ∈ xs, x = 0) : xs.sum = 0 := by
  induction xs with
  | nil => rfl
  | cons x rest ih =>
    simp only [List.sum_cons]
    rw [h x (List.mem_cons_self _ _), ih fun y hy => h y (List.mem_cons_of_mem _ hy)]

theorem lineFeeds_specCSV (rows : List (List String))
    (h : ∀ row ∈ rows, ∀ field ∈ row, lineFeeds field = 0) :
    lineFeeds (specCSV rows) = rows.length := by
  induction rows with
  | nil => decide
  | cons row rest ih =>
    rw [specCSV_cons, lineFeeds_append, lineFeeds_csvWrite,
      ih fun r hr => h r (List.mem_cons_of_mem _ hr)]
    have hrow : (row.map lineFeeds).sum = 0 := by
      apply sum_eq_zero_of_all_zero
      intro x hx
      obtain ⟨field, hfield, rfl⟩ := List.mem_map.mp hx
      exact h row (List.mem_cons_self _ _) field hfield
    simp only [List.length_cons]
    omega

theorem lineFeeds_stringsJoin (sep : String) (hsep : lineFeeds sep = 0) (xs : List String)
    (h : ∀ x ∈ xs, lineFeeds x = 0) : lineFeeds (stringsJoin xs sep) = 0 := by
  induction xs with
  | nil => rfl
  | cons a rest ih =>
    cases rest with
    | nil => simpa [stringsJoin] using h a (List.mem_cons_self _ _)
    | cons b rest2 =>
      simp only [stringsJoin, lineFeeds_append, hsep, h a (List.mem_cons_self _ _)]
      rw [ih fun x hx => h x (List.mem_cons_of_mem _ hx)]

theorem splitChars_ne_nil (sep : Char) (l : List Char) : splitChars sep l ≠ [] := by
  cases l with
  | nil => simp [splitChars]
  | cons c cs =>
    unfold splitChars
    by_cases hc : c = sep
    · simp [hc]
    · simp only [hc, if_false]
      cases splitChars sep cs <;> simp

theorem splitChars_length (sep : Char) (l : List Char) :
    (splitChars sep l).length = l.count sep + 1 := by
  induction l with
  | nil => rfl
  | cons c cs ih =>
    unfold splitChars
    by_cases hc : c = sep
    · subst hc
      simp [ih]
    · have hne : (c == sep) = false := by simpa using hc
      simp only [hc, if_false, List.count_cons, hne]
      cases hs : splitChars sep cs with
      | nil => exact absurd hs (splitChars_ne_nil sep cs)
      | cons piece pieces =>
        rw [hs] at ih
        simpa using ih

theorem splitChars_getLast (sep : Char) (l : List Char) :
    (splitChars sep (l ++ [sep])).getLast? = some [] := by
  induction l with
  | nil => simp [splitChars]
  | cons c cs ih =>
    simp only [List.cons_append]
    unfold splitChars
    by_cases hc : c = sep
    · simp only [hc, if_true]
      cases hs : splitChars sep (cs ++ [sep]) with
      | nil => exact absurd hs (splitChars_ne_nil sep _)
      | cons piece pieces =>
        rw [hs] at ih
        rw [List.getLast?_cons_cons]
        exact ih
    · simp only [hc, if_false]
      cases hs : splitChars sep (cs ++ [sep]) with
      | nil => exact absurd hs (splitChars_ne_nil sep _)
      | cons piece pieces =>
        rw [hs] at ih
        cases pieces with
        | nil =>
          simp only [List.getLast?_singleton, Option.some.injEq] at ih
          subst ih
          have hlen := splitChars_length sep (cs ++ [sep])
          rw [hs] at hlen
          simp at hlen
        | cons p ps =>
          rw [List.getLast?_cons_cons] at ih ⊢
          exact ih

theorem stringsSplit_length (s : String) :
    (stringsSplit s '\n').length = lineFeeds s + 1 := by
  simp [stringsSplit, splitChars_length, lineFeeds]

theorem specCSV_ends_with_line_feed (rows : List (List String)) (h : rows ≠ []) :
    ∃ l, (specCSV rows).data = l ++ ['\n'] := by
  induction rows with
  | nil => exact absurd rfl h
  | cons row rest ih =>
    cases rest with
    | nil =>
      refine ⟨(csvWriteFields "" 0 row).data, ?_⟩
      simp [specCSV, concatStrings, csvWrite, String.data_append]
    | cons r2 rest2 =>
      obtain ⟨l, hl⟩ := ih (by simp)
      refine ⟨(csvWrite "" row).data ++ l, ?_⟩
      rw [specCSV_cons, String.data_append, hl, List.append_assoc]

theorem stringsSplit_specCSV (rows : List (List String)) (hne : rows ≠ [])
    (h : ∀ row ∈ rows, ∀ field ∈ row, lineFeeds field = 0) :
    (stringsSplit (specCSV rows) '\n').length = rows.length + 1 ∧
    (stringsSplit (specCSV rows) '\n').getLast? = some "" := by
  refine ⟨by rw [stringsSplit_length, lineFeeds_specCSV rows h], ?_⟩
  obtain ⟨l, hl⟩ := specCSV_ends_with_line_feed rows hne
  unfold stringsSplit
  rw [hl, List.getLast?_map, splitChars_getLast]
  rfl

theorem nodesCSVStep_eq (w : String) (record : NodeReportItem) :
    nodesCSVStep w record = csvWrite w (specNodeRow record) := by
  unfold nodesCSVStep specNodeRow NodeReportItem.CookbooksList
  cases record.CookbookVersions <;> simp

theorem MakeNodesReportCSV_report (records : List NodeReportItem) (h : records ≠ []) :
    (MakeNodesReportCSV records).Report =
      specCSV (nodesTableHeaders :: records.map specNodeRow) := by
  have hlen : records.length ≠ 0 := fun h0 => h (List.length_eq_zero.mp h0)
  have hstep : nodesCSVStep = fun w record => csvWrite w (specNodeRow record) := by
    funext w record
    exact nodesCSVStep_eq w record
  simp only [MakeNodesReportCSV, hlen, if_false, hstep]
  rw [foldl_csvWrite, specCSV_cons]

theorem specNodesColumn_no_line_feed (record : CookbookRecord)
    (h : ∀ node ∈ record.Nodes, lineFeeds node = 0) :
    lineFeeds (specNodesColumn record) = 0 := by
  unfold specNodesColumn
  by_cases hn : record.Nodes = []
  · simp only [hn, if_true]
    decide
  · simp only [hn, if_false]
    exact lineFeeds_stringsJoin " " (by decide) record.Nodes h

theorem specNodeRow_no_line_feed (record : NodeReportItem) (h : nodeFieldsNoLineFeed record) :
    ∀ field ∈ specNodeRow record, lineFeeds field = 0 := by
  obtain ⟨hname, hchef, hos, hosv, hcbv⟩ := h
  have hpretty : lineFeeds record.OSVersionPretty = 0 := by
    unfold NodeReportItem.OSVersionPretty
    by_cases ho : record.OS = ""
    · simp only [ho, if_true]
      decide
    · simp only [ho, if_false, lineFeeds_append, hos, hosv]
      decide
  have hcookbooks : lineFeeds (if record.CookbookVersions = [] then "None"
      else stringsJoin record.CookbooksList " ") = 0 := by
    by_cases hc : record.CookbookVersions = []
    · simp only [hc, if_true]
      decide
    · simp only [hc, if_false]
      refine lineFeeds_stringsJoin " " (by decide) _ ?_
      intro token htoken
      obtain ⟨cbv, hmem, rfl⟩ := List.mem_map.mp htoken
      obtain ⟨h1, h2⟩ := hcbv cbv hmem
      simp only [CookbookVersion.String, lineFeeds_append, h1, h2]
      decide
  intro field hfield
  simp only [specNodeRow, List.mem_cons, List.mem_singleton, List.not_mem_nil, or_false]
    at hfield
  rcases hfield with hf | hf | hf | hf <;> subst hf <;> assumption

theorem specCookbookRows_no_line_feed (runCookstyle : Bool) (record : CookbookRecord)
    (h : cookbookFieldsNoLineFeed runCookstyle record) :
    ∀ row ∈ specCookbookRows runCookstyle record, ∀ field ∈ row, lineFeeds field = 0 := by
  obtain ⟨hname, hversion, hnodes, hfiles⟩ := h
  have hcol := specNodesColumn_no_line_feed record hnodes
  intro row hrow field hfield
  cases runCookstyle with
  | false =>
    simp only [specCookbookRows, Bool.false_eq_true, if_false, List.mem_singleton] at hrow
    subst hrow
    simp only [specRecordRow, List.mem_cons, List.mem_singleton, List.not_mem_nil, or_false]
      at hfield
    rcases hfield with hf | hf | hf <;> subst hf <;> assumption
  | true =>
    simp only [specCookbookRows, if_true, specOffenseRows, List.mem_flatMap, List.mem_map]
      at hrow
    obtain ⟨file, hfile, offense, hoffense, rfl⟩ := hrow
    obtain ⟨hpath, hoffenses⟩ := hfiles rfl file hfile
    obtain ⟨hcop, hmsg⟩ := hoffenses offense hoffense
    have hyn : lineFeeds (if offense.Correctable then "Y" else "N") = 0 := by
      cases offense.Correctable <;> decide
    simp only [specOffenseRow, List.mem_cons, List.mem_singleton, List.not_mem_nil, or_false]
      at hfield
    rcases hfield with hf | hf | hf | hf | hf | hf | hf <;> subst hf <;> assumption

/-- Claim C10, as stated, fails: a node name, and a cookbook name, holding a line
feed is written inside quotes with the line feed kept, so the report of a
single record (`D = 1`) splits into four pieces, not into `1 + D + 1 = 3`. -/
theorem csv_line_count_fails_on_line_feed :
    (stringsSplit (MakeNodesReportCSV [⟨"web\n1", "15.0", "ubuntu", "18.04", []⟩]).Report
      '\n').length = 4 ∧
    (stringsSplit (MakeNodesReportCSV [⟨"web\n1", "15.0", "ubuntu", "18.04", []⟩]).Report
      '\n').length ≠
      1 + ([⟨"web\n1", "15.0", "ubuntu", "18.04", []⟩] : List NodeReportItem).length + 1 ∧
    (stringsSplit (MakeCookbooksReportCSV
      (some ⟨[⟨"my\ncookbook", "1.0", [], [], none, none, none⟩], false⟩)).Report
      '\n').length = 4 := by
  decide

/-- Claim C10, amended: for non-empty record sequences in which no field holds a
line feed, splitting the CSV report at the line feeds yields exactly
`1 + D + 1` pieces, the last of which is the empty string, where `D` is the
number of node records for `MakeNodesReportCSV`, and for
`MakeCookbooksReportCSV` the number of records when `RunCookstyle` is false and
the total number of offenses of all records when it is true. -/
theorem csv_report_line_count (nodes : List NodeReportItem) (records : List CookbookRecord)
    (runCookstyle : Bool) (hnodes : nodes ≠ []) (hrecords : records ≠ [])
    (hnodeFields : ∀ record ∈ nodes, nodeFieldsNoLineFeed record)
    (hrecordFields : ∀ record ∈ records, cookbookFieldsNoLineFeed runCookstyle record) :
    ((stringsSplit (MakeNodesReportCSV nodes).Report '\n').length = 1 + nodes.length + 1 ∧
      (stringsSplit (MakeNodesReportCSV nodes).Report '\n').getLast? = some "") ∧
    ((stringsSplit (MakeCookbooksReportCSV (some ⟨records, runCookstyle⟩)).Report '\n').length =
        1 + (if runCookstyle then (records.map CookbookRecord.NumOffenses).sum
          else records.length) + 1 ∧
      (stringsSplit (MakeCookbooksReportCSV (some ⟨records, runCookstyle⟩)).Report
        '\n').getLast? = some "") := by
  refine ⟨?_, ?_⟩
  · rw [MakeNodesReportCSV_report nodes hnodes]
    have hfields : ∀ row ∈ nodesTableHeaders :: nodes.map specNodeRow,
        ∀ field ∈ row, lineFeeds field = 0 := by
      intro row hrow
      rcases List.mem_cons.mp hrow with hr | hr
      · subst hr
        decide
      · obtain ⟨record, hrecord, rfl⟩ := List.mem_map.mp hr
        exact specNodeRow_no_line_feed record (hnodeFields record hrecord)
    obtain ⟨hlen, hlast⟩ := stringsSplit_specCSV _ (List.cons_ne_nil _ _) hfields
    refine ⟨?_, hlast⟩
    rw [hlen]
    simp only [List.length_cons, List.length_map]
    omega
  · rw [MakeCookbooksReportCSV_report runCookstyle records hrecords]
    have hfields : ∀ row ∈ cookbooksTableHeaders runCookstyle ::
        records.flatMap (specCookbookRows runCookstyle),
        ∀ field ∈ row, lineFeeds field = 0 := by
      intro row hrow
      rcases List.mem_cons.mp hrow with hr | hr
      · subst hr
        cases runCookstyle <;> decide
      · obtain ⟨record, hrecord, hmem⟩ := List.mem_flatMap.mp hr
        exact specCookbookRows_no_line_feed runCookstyle record
          (hrecordFields record hrecord) row hmem
    obtain ⟨hlen, hlast⟩ := stringsSplit_specCSV _ (List.cons_ne_nil _ _) hfields
    refine ⟨?_, hlast⟩
    rw [hlen]
    have hcount : (records.flatMap (specCookbookRows runCookstyle)).length =
        if runCookstyle then (records.map CookbookRecord.NumOffenses).sum
          else records.length := by
      rw [List.length_flatMap]
      cases runCookstyle with
      | false => simp [specCookbookRows, Function.comp_def]
      | true =>
        simp only [if_true]
        congr 1
        refine List.map_congr_left fun record _ => ?_
        simp [specCookbookRows, specOffenseRows_length]
    simp only [List.length_cons, hcount]
    omega

theorem csv_report_line_count_witness :
    (stringsSplit (MakeNodesReportCSV sampleNodes).Report '\n').length = 5 ∧
    (stringsSplit (MakeNodesReportCSV sampleNodes).Report '\n').getLast? = some "" ∧
    (stringsSplit (MakeCookbooksReportCSV (some ⟨sampleRecords, true⟩)).Report '\n').length =
      1 + 3 + 1 :=
  have h := csv_report_line_count sampleNodes sampleRecords true (by decide) (by decide)
    (by decide) (by decide)
  ⟨h.1.1, h.1.2, h.2.1⟩

/-! ## Lemmas on the plain-text cookbook report and the error text -/

theorem specRecordErrors_eq (record : CookbookRecord) :
    specRecordErrors record =
      concatStrings ((record.DownloadError.toList ++ record.UsageLookupError.toList ++
        record.CookstyleError.toList).map (specErrorLine record)) := rfl

theorem MakeCookbooksReportCSV_errors (runCookstyle : Bool) (records : List CookbookRecord)
    (h : records ≠ []) :
    (MakeCookbooksReportCSV (some ⟨records, runCookstyle⟩)).Errors =
      concatStrings (records.map specRecordErrors) := by
  have hlen : records.length ≠ 0 := fun h0 => h (List.length_eq_zero.mp h0)
  simp only [MakeCookbooksReportCSV, hlen, if_false, cookbooksCSV_foldl]
  simp

theorem specRecordErrors_of_oneErrorSlot (record : CookbookRecord) (e : GoError)
    (h : oneErrorSlot record e) : specRecordErrors record = specErrorLine record e := by
  rw [specRecordErrors_eq]
  rcases h with ⟨h1, h2, h3⟩ | ⟨h1, h2, h3⟩ | ⟨h1, h2, h3⟩ <;>
    simp [h1, h2, h3, concatStrings]

theorem splitChars_append_sep (sep : Char) (l rest : List Char) (h : sep ∉ l) :
    splitChars sep (l ++ sep :: rest) = l :: splitChars sep rest := by
  induction l with
  | nil => simp [splitChars]
  | cons c cs ih =>
    have hc : c ≠ sep := fun hEq => h (hEq ▸ List.mem_cons_self _ _)
    have hcs : sep ∉ cs := fun hm => h (List.mem_cons_of_mem _ hm)
    simp only [List.cons_append]
    rw [splitChars]
    simp only [hc, if_false, ih hcs]

theorem stringsSplit_line (line rest : String) (h : lineFeeds line = 0) :
    stringsSplit (line ++ "\n" ++ rest) '\n' = line :: stringsSplit rest '\n' := by
  have hmem : '\n' ∉ line.data := by
    intro hm
    have := List.count_pos_iff.mpr hm
    unfold lineFeeds at h
    omega
  have hdata : (line ++ "\n" ++ rest).data = line.data ++ '\n' :: rest.data := by
    simp [String.data_append]
  unfold stringsSplit
  rw [hdata, splitChars_append_sep '\n' line.data rest.data hmem]
  rfl

theorem lineFeeds_specErrorText (record : CookbookRecord) (e : GoError)
    (hname : lineFeeds record.Name = 0) (hversion : lineFeeds record.Version = 0)
    (hmsg : lineFeeds e.Error = 0) : lineFeeds (specErrorText record e) = 0 := by
  simp only [specErrorText, lineFeeds_append, hname, hversion, hmsg]
  decide

theorem stringsSplit_getLast_of_line (text : String) :
    (stringsSplit (text ++ "\n") '\n').getLast? = some "" := by
  have hdata : (text ++ "\n").data = text.data ++ ['\n'] := by
    simp [String.data_append]
  unfold stringsSplit
  rw [hdata, List.getLast?_map, splitChars_getLast]
  rfl

/-! ## The error text of the cookbook CSV report -/

/-- Claim C11, as stated, fails: for three records with one distinct error slot
set each, the first error message holding a line feed, the error text of
`MakeCookbooksReportCSV` splits at the line feeds into five pieces, four lines
and the empty piece, not into three lines and the empty piece. -/
theorem cookbooksCSV_error_lines_fail_on_line_feed :
    stringsSplit (MakeCookbooksReportCSV (some ⟨sampleLineFeedErrorRecords, false⟩)).Errors '\n' =
      [" - my-cookbook (1.0): could not download:", "connection refused",
       " - their-cookbook (1.1): could not look up usage",
       " - our-cookbook (1.2): cookstyle error", ""] ∧
    (stringsSplit (MakeCookbooksReportCSV (some ⟨sampleLineFeedErrorRecords, false⟩)).Errors
      '\n').length ≠ 3 + 1 := by
  decide

/-- Claim C11, amended: for a non-empty status the error text of
`MakeCookbooksReportCSV` is, record after record in stored order and within a
record for the error slots that are set in the order download, usage lookup,
cookstyle, the line ` - <Name> (<Version>): <error message>` ended by a line
feed; a record with no slot set adds nothing. Three records with one slot set
each give exactly their three lines; split at the line feeds the text ends
with an empty piece, and when no name, version or message holds a line feed
the pieces are exactly the three line texts and the empty piece. -/
theorem cookbooksCSV_error_text (runCookstyle : Bool) (records : List CookbookRecord)
    (h : records ≠ []) :
    (MakeCookbooksReportCSV (some ⟨records, runCookstyle⟩)).Errors =
      concatStrings (records.map fun record =>
        concatStrings ((record.DownloadError.toList ++ record.UsageLookupError.toList ++
          record.CookstyleError.toList).map fun e =>
            " - " ++ record.Name ++ " (" ++ record.Version ++ "): " ++ e.Error ++ "\n")) ∧
    (∀ r₁ r₂ r₃ e₁ e₂ e₃, records = [r₁, r₂, r₃] →
      oneErrorSlot r₁ e₁ → oneErrorSlot r₂ e₂ → oneErrorSlot r₃ e₃ →
      (MakeCookbooksReportCSV (some ⟨records, runCookstyle⟩)).Errors =
        (" - " ++ r₁.Name ++ " (" ++ r₁.Version ++ "): " ++ e₁.Error ++ "\n") ++
        (" - " ++ r₂.Name ++ " (" ++ r₂.Version ++ "): " ++ e₂.Error ++ "\n") ++
        (" - " ++ r₃.Name ++ " (" ++ r₃.Version ++ "): " ++ e₃.Error ++ "\n") ∧
      (stringsSplit (MakeCookbooksReportCSV (some ⟨records, runCookstyle⟩)).Errors
        '\n').getLast? = some "" ∧
      (lineFeeds r₁.Name = 0 → lineFeeds r₁.Version = 0 → lineFeeds e₁.Error = 0 →
        lineFeeds r₂.Name = 0 → lineFeeds r₂.Version = 0 → lineFeeds e₂.Error = 0 →
        lineFeeds r₃.Name = 0 → lineFeeds r₃.Version = 0 → lineFeeds e₃.Error = 0 →
        stringsSplit (MakeCookbooksReportCSV (some ⟨records, runCookstyle⟩)).Errors '\n' =
          [" - " ++ r₁.Name ++ " (" ++ r₁.Version ++ "): " ++ e₁.Error,
           " - " ++ r₂.Name ++ " (" ++ r₂.Version ++ "): " ++ e₂.Error,
           " - " ++ r₃.Name ++ " (" ++ r₃.Version ++ "): " ++ e₃.Error, ""])) := by
  have herr := MakeCookbooksReportCSV_errors runCookstyle records h
  refine ⟨herr, ?_⟩
  intro r₁ r₂ r₃ e₁ e₂ e₃ hrec h₁ h₂ h₃
  have htext : (MakeCookbooksReportCSV (some ⟨records, runCookstyle⟩)).Errors =
      specErrorText r₁ e₁ ++ "\n" ++ (specErrorText r₂ e₂ ++ "\n" ++
        (specErrorText r₃ e₃ ++ "\n" ++ "")) := by
    rw [herr, hrec]
    simp only [List.map_cons, List.map_nil, concatStrings,
      specRecordErrors_of_oneErrorSlot r₁ e₁ h₁, specRecordErrors_of_oneErrorSlot r₂ e₂ h₂,
      specRecordErrors_of_oneErrorSlot r₃ e₃ h₃, specErrorLine, String.append_assoc]
  refine ⟨?_, ?_, ?_⟩
  · rw [htext]
    simp only [specErrorText, String.append_assoc, String.append_empty]
  · have hlast : (MakeCookbooksReportCSV (some ⟨records, runCookstyle⟩)).Errors =
        (specErrorText r₁ e₁ ++ "\n" ++ (specErrorText r₂ e₂ ++ "\n" ++
          specErrorText r₃ e₃)) ++ "\n" := by
      rw [htext]
      simp only [String.append_assoc, String.append_empty]
    rw [hlast]
    exact stringsSplit_getLast_of_line _
  · intro hn₁ hv₁ hm₁ hn₂ hv₂ hm₂ hn₃ hv₃ hm₃
    rw [htext, stringsSplit_line _ _ (lineFeeds_specErrorText r₁ e₁ hn₁ hv₁ hm₁),
      stringsSplit_line _ _ (lineFeeds_specErrorText r₂ e₂ hn₂ hv₂ hm₂),
      stringsSplit_line _ _ (lineFeeds_specErrorText r₃ e₃ hn₃ hv₃ hm₃)]
    rfl

theorem cookbooksCSV_error_text_witness :
    stringsSplit (MakeCookbooksReportCSV (some ⟨sampleErrorRecords, false⟩)).Errors '\n' =
      [" - my-cookbook (1.0): could not download",
       " - their-cookbook (1.1): could not look up usage",
       " - our-cookbook (1.2): cookstyle error", ""] :=
  ((cookbooksCSV_error_text false sampleErrorRecords (by decide)).2 _ _ _
    (.new "could not download") (.new "could not look up usage") (.new "cookstyle error")
    rfl (by decide) (by decide) (by decide)).2.2
    (by decide) (by decide) (by decide) (by decide) (by decide) (by decide)
    (by decide) (by decide) (by decide)

theorem concatStrings_filter_map (files : List CookbookFile) :
    concatStrings (files.map fun f => if f.Offenses = [] then "" else specTXTFile f) =
      specTXTListing files := by
  unfold specTXTListing filesWithOffenses
  induction files with
  | nil => rfl
  | cons f rest ih =>
    by_cases hf : f.Offenses = []
    · simp [concatStrings, hf, ih]
    · simp [concatStrings, hf, ih]

theorem cookbooksTXTFiles_eq (w : String) (files : List CookbookFile) :
    cookbooksTXTFiles w files = w ++ specTXTListing files := by
  unfold cookbooksTXTFiles
  have hstep : ∀ (w : String) (f : CookbookFile),
      (if f.Offenses.length = 0 then w
        else f.Offenses.foldl
          (fun w o =>
            w ++ ("\n\t" ++ o.CopName ++ " (" ++ toString o.Correctable ++ ") " ++ o.Message))
          (w ++ ("\n   - " ++ f.Path ++ ":"))) =
        w ++ (if f.Offenses = [] then "" else specTXTFile f) := by
    intro w f
    by_cases hf : f.Offenses = []
    · simp [hf]
    · have hlen : f.Offenses.length ≠ 0 := fun h0 => hf (List.length_eq_zero.mp h0)
      simp only [hlen, hf, if_false]
      have hfold := foldl_append_text
        (fun (w : String) (o : CookstyleOffense) =>
          w ++ ("\n\t" ++ o.CopName ++ " (" ++ toString o.Correctable ++ ") " ++ o.Message))
        specTXTOffense (fun _ _ => rfl) f.Offenses (w ++ ("\n   - " ++ f.Path ++ ":"))
      rw [hfold]
      simp [specTXTFile, String.append_assoc]
  rw [foldl_append_text _ _ hstep files w, concatStrings_filter_map]

theorem cookbooksTXTStep_eq (runCookstyle : Bool) (b : String × String)
    (record : CookbookRecord) :
    cookbooksTXTStep runCookstyle b record =
      (b.1 ++ specTXTBlock runCookstyle record, b.2 ++ specRecordErrors record) := by
  unfold cookbooksTXTStep
  simp only [writeRecordErrors_eq, cookbooksTXTFiles_eq]
  have hnodes : ∀ sb : String,
      (if record.NumNodesAffected = 0 then sb ++ "  Nodes affected: none\n"
        else sb ++ "  Nodes affected: " ++ stringsJoin record.Nodes ", " ++ "\n") =
        sb ++ specTXTNodes record := by
    intro sb
    unfold specTXTNodes CookbookRecord.NumNodesAffected
    cases record.Nodes <;> simp [String.append_assoc]
  rw [hnodes]
  cases runCookstyle with
  | false => simp [specTXTBlock, specTXTHeader, String.append_assoc]
  | true =>
    by_cases hn : record.NumOffenses = 0 <;>
      simp [specTXTBlock, specTXTHeader, specTXTCookstyle, hn, String.append_assoc]

theorem MakeCookbooksReportTXT_eq (runCookstyle : Bool) (records : List CookbookRecord)
    (h : records ≠ []) :
    MakeCookbooksReportTXT (some ⟨records, runCookstyle⟩) =
      ⟨concatStrings (records.map (specTXTBlock runCookstyle)),
        concatStrings (records.map specRecordErrors)⟩ := by
  have hlen : records.length ≠ 0 := fun h0 => h (List.length_eq_zero.mp h0)
  simp only [MakeCookbooksReportTXT, hlen, if_false]
  rw [foldl_pair_append _ _ _ (cookbooksTXTStep_eq runCookstyle) records ("", "")]
  simp

theorem containsText_of_mem {α : Type} (g : α → String) (xs : List α) (x : α) (hx : x ∈ xs) :
    containsText (concatStrings (xs.map g)) (g x) := by
  obtain ⟨l₁, l₂, rfl⟩ := List.append_of_mem hx
  refine ⟨concatStrings (l₁.map g), concatStrings (l₂.map g), ?_⟩
  simp [concatStrings_append, concatStrings, String.append_assoc]

theorem containsText_append_left (a text part : String) (h : containsText text part) :
    containsText (a ++ text) part := by
  obtain ⟨before, after, rfl⟩ := h
  exact ⟨a ++ before, after, by simp [String.append_assoc]⟩

theorem containsText_prefix (part rest : String) : containsText (part ++ rest) part :=
  ⟨"", rest, by simp⟩

theorem containsText_trans (text mid part : String) (h₁ : containsText text mid)
    (h₂ : containsText mid part) : containsText text part := by
  obtain ⟨b₁, a₁, rfl⟩ := h₁
  obtain ⟨b₂, a₂, rfl⟩ := h₂
  exact ⟨b₁ ++ b₂, a₂ ++ a₁, by simp [String.append_assoc]⟩

/-! ## Records with errors in the cookbook reports -/

/-- Claim C12, as stated, fails: with `RunCookstyle` true, a record whose
cookstyle run failed (so that it has no files) leaves no row in the report of
`MakeCookbooksReportCSV`: the report is the header row alone, and the record
is named in the error text only. -/
theorem cookbooksCSV_drops_record_without_offenses :
    sampleFailedRecord.CookstyleError ≠ none ∧
    (MakeCookbooksReportCSV (some ⟨[sampleFailedRecord], true⟩)).Report =
      "Cookbook Name,Version,File,Offense,Automatically Correctable,Message,Nodes\n" ∧
    (MakeCookbooksReportCSV (some ⟨[sampleFailedRecord], true⟩)).Errors =
      " - my-cookbook (1.0): cookstyle error\n" := by
  decide

/-- Claim C12, amended: for every status and every record in it, the report of
`MakeCookbooksReportTXT` contains the block of the record, which starts with
the line `> Cookbook: <Name> (<Version>)`; the report of
`MakeCookbooksReportCSV` contains the row of the record when `RunCookstyle` is
false, and one row for each offense of the record when `RunCookstyle` is true
(so none for a record without offenses); and the error text of both
formatters contains the error lines of the record. -/
theorem cookbook_records_rendered (runCookstyle : Bool) (records : List CookbookRecord)
    (record : CookbookRecord) (h : record ∈ records) :
    containsText (MakeCookbooksReportTXT (some ⟨records, runCookstyle⟩)).Report
      (specTXTBlock runCookstyle record) ∧
    containsText (MakeCookbooksReportTXT (some ⟨records, runCookstyle⟩)).Report
      ("> Cookbook: " ++ record.Name ++ " (" ++ record.Version ++ ")\n") ∧
    (runCookstyle = false →
      containsText (MakeCookbooksReportCSV (some ⟨records, runCookstyle⟩)).Report
        (csvWrite "" [record.Name, record.Version,
          if record.Nodes = [] then "None" else stringsJoin record.Nodes " "])) ∧
    (runCookstyle = true → ∀ file ∈ record.Files, ∀ offense ∈ file.Offenses,
      containsText (MakeCookbooksReportCSV (some ⟨records, runCookstyle⟩)).Report
        (csvWrite "" [record.Name, record.Version, file.Path, offense.CopName,
          if offense.Correctable then "Y" else "N", offense.Message,
          if record.Nodes = [] then "None" else stringsJoin record.Nodes " "])) ∧
    containsText (MakeCookbooksReportCSV (some ⟨records, runCookstyle⟩)).Errors
      (specRecordErrors record) ∧
    containsText (MakeCookbooksReportTXT (some ⟨records, runCookstyle⟩)).Errors
      (specRecordErrors record) := by
  have hne : records ≠ [] := List.ne_nil_of_mem h
  have hrows : containsText (MakeCookbooksReportCSV (some ⟨records, runCookstyle⟩)).Report
      (specCSV (specCookbookRows runCookstyle record)) := by
    rw [MakeCookbooksReportCSV_report runCookstyle records hne, specCSV_cons, specCSV_flatMap]
    exact containsText_append_left _ _ _
      (containsText_of_mem (fun r => specCSV (specCookbookRows runCookstyle r)) records record h)
  have hblock : containsText (MakeCookbooksReportTXT (some ⟨records, runCookstyle⟩)).Report
      (specTXTBlock runCookstyle record) := by
    rw [MakeCookbooksReportTXT_eq runCookstyle records hne]
    exact containsText_of_mem _ records record h
  refine ⟨hblock, ?_, ?_, ?_, ?_, ?_⟩
  · refine containsText_trans _ _ _ hblock ?_
    unfold specTXTBlock specTXTHeader
    rw [String.append_assoc]
    exact containsText_prefix _ _
  · intro hrc
    subst hrc
    refine containsText_trans _ _ _ hrows ?_
    exact ⟨"", "", by simp [specCookbookRows, specCSV, concatStrings, specRecordRow,
      specNodesColumn]⟩
  · intro hrc file hfile offense hoffense
    subst hrc
    refine containsText_trans _ _ _ hrows ?_
    have h1 : containsText (specCSV (specCookbookRows true record))
        (specCSV (file.Offenses.map (specOffenseRow record file))) := by
      simp only [specCookbookRows, if_true, specOffenseRows]
      rw [specCSV_flatMap]
      exact containsText_of_mem
        (fun f : CookbookFile => specCSV (f.Offenses.map (specOffenseRow record f)))
        record.Files file hfile
    refine containsText_trans _ _ _ h1 ?_
    unfold specCSV
    rw [List.map_map]
    exact containsText_of_mem (csvWrite "" ∘ specOffenseRow record file) file.Offenses offense
      hoffense
  · rw [MakeCookbooksReportCSV_errors runCookstyle records hne]
    exact containsText_of_mem specRecordErrors records record h
  · rw [MakeCookbooksReportTXT_eq runCookstyle records hne]
    exact containsText_of_mem specRecordErrors records record h

theorem cookbook_records_rendered_witness :
    containsText (MakeCookbooksReportTXT (some ⟨[sampleFailedRecord, sampleUsageRecord], true⟩)).Report
      ("> Cookbook: " ++ sampleUsageRecord.Name ++ " (" ++ sampleUsageRecord.Version ++ ")\n") ∧
    containsText (MakeCookbooksReportCSV (some ⟨[sampleFailedRecord, sampleUsageRecord], true⟩)).Errors
      (specRecordErrors sampleUsageRecord) :=
  have h := cookbook_records_rendered true [sampleFailedRecord, sampleUsageRecord]
    sampleUsageRecord (List.mem_cons_of_mem _ (List.mem_cons_self _ _))
  ⟨h.2.1, h.2.2.2.2.1⟩

/-! ## The node CSV report -/

/-- Claim C13: for a non-empty sequence of node records the report of
`MakeNodesReportCSV` is the header row
`Node Name,Chef Version,Operating System,Cookbooks` followed by one row per
node in input order, with the fields `Name`, `ChefVersion`, the
operating-system field and the cookbooks field; the cookbooks field is `None`
when the node has no cookbook versions, and otherwise their `Name(Version)`
tokens in stored order joined by a single space. -/
theorem nodesCSV_rows (records : List NodeReportItem) (h : records ≠ []) :
    (MakeNodesReportCSV records).Report =
      "Node Name,Chef Version,Operating System,Cookbooks\n" ++
        concatStrings (records.map fun record =>
          csvWrite "" [record.Name, record.ChefVersion, record.OSVersionPretty,
            if record.CookbookVersions = [] then "None"
            else stringsJoin (record.CookbookVersions.map CookbookVersion.String) " "]) := by
  rw [MakeNodesReportCSV_report records h, specCSV_cons]
  have hheader : csvWrite "" nodesTableHeaders =
      "Node Name,Chef Version,Operating System,Cookbooks\n" := by
    decide
  rw [hheader]
  simp only [specCSV, List.map_map]
  rfl

theorem nodesCSV_rows_witness :
    (MakeNodesReportCSV sampleNodes).Report =
      "Node Name,Chef Version,Operating System,Cookbooks\n" ++
      "node1,12.22,windows v10.1,mycookbook(1.0)\n" ++
      "node2,13.11,,mycookbook(1.0) test(9.9)\n" ++
      "node3,15.00,ubuntu v16.04,None\n" :=
  (nodesCSV_rows sampleNodes (by decide)).trans (by rfl)

/-- Claim C14: in the row `MakeNodesReportCSV` writes for a node record, the
third field, the operating system, is the empty string when `OS` is empty,
whatever `OSVersion` is, and `OS` followed by ` v` and `OSVersion` when `OS` is
not empty. -/
theorem nodesCSV_operating_system (w : String) (record : NodeReportItem) :
    (∃ cookbooks, nodesCSVStep w record =
      csvWrite w [record.Name, record.ChefVersion,
        if record.OS = "" then "" else record.OS ++ " v" ++ record.OSVersion, cookbooks]) ∧
    (record.OS = "" → record.OSVersionPretty = "") ∧
    (record.OS ≠ "" → record.OSVersionPretty = record.OS ++ " v" ++ record.OSVersion) := by
  refine ⟨⟨_, nodesCSVStep_eq w record⟩, ?_, ?_⟩
  · intro hos
    simp [NodeReportItem.OSVersionPretty, hos]
  · intro hos
    simp [NodeReportItem.OSVersionPretty, hos]

theorem nodesCSV_operating_system_witness :
    NodeReportItem.OSVersionPretty ⟨"node2", "13.11", "", "7.1", []⟩ = "" ∧
    NodeReportItem.OSVersionPretty ⟨"node1", "12.22", "windows", "10.1", []⟩ = "windows v10.1" :=
  ⟨(nodesCSV_operating_system "" ⟨"node2", "13.11", "", "7.1", []⟩).2.1 rfl,
   (nodesCSV_operating_system "" ⟨"node1", "12.22", "windows", "10.1", []⟩).2.2 (by decide)⟩

/-! ## The table row of a node -/

theorem concatStrings_with_sep (sep : String) (tokens : List String) (h : tokens ≠ []) :
    concatStrings (tokens.map fun token => token ++ sep) = stringsJoin tokens sep ++ sep := by
  induction tokens with
  | nil => exact absurd rfl h
  | cons a rest ih =>
    cases rest with
    | nil => simp [concatStrings, stringsJoin]
    | cons b rest2 =>
      have hrest := ih (by simp)
      simp only [List.map_cons, concatStrings, stringsJoin, String.append_assoc] at hrest ⊢
      rw [hrest]

/-- Claim C15, as the code has it: the row `NodeReportItem.Array()` has the five
columns `Name`, `ChefVersion`, `OS`, `OSVersion` and the cookbooks column, and
the cookbooks column is every `Name(Version)` token in stored order, each one
followed by a space: it is empty when there are no cookbooks, and otherwise it
is the tokens joined by single spaces with one more space at the end, which
is not what `strings.Join` gives. -/
theorem Array_cookbooks_column (nri : NodeReportItem) :
    nri.Array = [nri.Name, nri.ChefVersion, nri.OS, nri.OSVersion,
      concatStrings (nri.CookbookVersions.map fun v => v.String ++ " ")] ∧
    nri.Array.length = 5 ∧
    (nri.CookbookVersions = [] → nri.Array[4]? = some "") ∧
    (nri.CookbookVersions ≠ [] →
      nri.Array[4]? =
        some (stringsJoin (nri.CookbookVersions.map CookbookVersion.String) " " ++ " ")) := by
  have harr : nri.Array = [nri.Name, nri.ChefVersion, nri.OS, nri.OSVersion,
      concatStrings (nri.CookbookVersions.map fun v => v.String ++ " ")] := by
    unfold NodeReportItem.Array
    have hfold := foldl_append_text
      (fun (cookbooks : String) (v : CookbookVersion) => cookbooks ++ v.String ++ " ")
      (fun v => v.String ++ " ") (fun w v => String.append_assoc w v.String " ")
      nri.CookbookVersions ""
    simp only [hfold, String.empty_append]
  refine ⟨harr, by simp [harr], ?_, ?_⟩
  · intro hnil
    simp [harr, hnil, concatStrings]
  · intro hne
    have htokens : nri.CookbookVersions.map CookbookVersion.String ≠ [] := by
      simpa using hne
    have hsep := concatStrings_with_sep " " _ htokens
    rw [List.map_map] at hsep
    simp only [harr, List.getElem?_cons_succ, List.getElem?_cons_zero, Option.some.injEq]
    exact hsep

theorem Array_cookbooks_column_witness :
    NodeReportItem.Array ⟨"web1", "15.0.300", "ubuntu", "18.04",
        [⟨"apache", "1.0.1"⟩, ⟨"ntp", "3.2.0"⟩]⟩ =
      ["web1", "15.0.300", "ubuntu", "18.04", "apache(1.0.1) ntp(3.2.0) "] ∧
    "apache(1.0.1) ntp(3.2.0) " ≠
      stringsJoin [CookbookVersion.String ⟨"apache", "1.0.1"⟩,
        CookbookVersion.String ⟨"ntp", "3.2.0"⟩] " " :=
  ⟨(Array_cookbooks_column ⟨"web1", "15.0.300", "ubuntu", "18.04",
      [⟨"apache", "1.0.1"⟩, ⟨"ntp", "3.2.0"⟩]⟩).1.trans (by rfl), by decide⟩

/-! ## The plain-text cookbook report -/

/-- Claim C16: for a non-empty status the report of `MakeCookbooksReportTXT` is
one block per record, in record order; a block starts with the line
`> Cookbook: <Name> (<Version>)`, followed by the line `  Nodes affected: none`
when the record has no nodes and by `  Nodes affected: ` and the node names
joined by `, ` otherwise; when `RunCookstyle` is false the block is these two
lines and nothing else, whatever the `Files` of the records are. -/
theorem cookbooksTXT_blocks (runCookstyle : Bool) (records : List CookbookRecord)
    (h : records ≠ []) :
    (MakeCookbooksReportTXT (some ⟨records, runCookstyle⟩)).Report =
      concatStrings (records.map fun record =>
        ("> Cookbook: " ++ record.Name ++ " (" ++ record.Version ++ ")\n") ++
        (if record.Nodes = [] then "  Nodes affected: none\n"
          else "  Nodes affected: " ++ stringsJoin record.Nodes ", " ++ "\n") ++
        (if runCookstyle then specTXTCookstyle record else "")) ∧
    (runCookstyle = false →
      (MakeCookbooksReportTXT (some ⟨records, runCookstyle⟩)).Report =
        concatStrings (records.map fun record =>
          ("> Cookbook: " ++ record.Name ++ " (" ++ record.Version ++ ")\n") ++
          (if record.Nodes = [] then "  Nodes affected: none\n"
            else "  Nodes affected: " ++ stringsJoin record.Nodes ", " ++ "\n")) ∧
      ∀ files : CookbookRecord → List CookbookFile,
        (MakeCookbooksReportTXT (some
          ⟨records.map (fun record => { record with Files := files record }),
            runCookstyle⟩)).Report =
        (MakeCookbooksReportTXT (some ⟨records, runCookstyle⟩)).Report) := by
  refine ⟨?_, ?_⟩
  · rw [MakeCookbooksReportTXT_eq runCookstyle records h]
    rfl
  · intro hrc
    subst hrc
    have hform : ∀ rs : List CookbookRecord, rs ≠ [] →
        (MakeCookbooksReportTXT (some ⟨rs, false⟩)).Report =
          concatStrings (rs.map fun record =>
            ("> Cookbook: " ++ record.Name ++ " (" ++ record.Version ++ ")\n") ++
            (if record.Nodes = [] then "  Nodes affected: none\n"
              else "  Nodes affected: " ++ stringsJoin record.Nodes ", " ++ "\n")) := by
      intro rs hrs
      rw [MakeCookbooksReportTXT_eq false rs hrs]
      simp only
      congr 1
      refine List.map_congr_left fun record _ => ?_
      simp [specTXTBlock, specTXTHeader, specTXTNodes]
    refine ⟨hform records h, ?_⟩
    intro files
    rw [hform records h, hform _ (by simpa using h), List.map_map]
    rfl

theorem cookbooksTXT_blocks_witness :
    (MakeCookbooksReportTXT (some ⟨[sampleFailedRecord, sampleUsageRecord], false⟩)).Report =
      "> Cookbook: my-cookbook (1.0)\n  Nodes affected: node-1, node-2\n" ++
      "> Cookbook: their-cookbook (1.1)\n  Nodes affected: none\n" :=
  ((cookbooksTXT_blocks false [sampleFailedRecord, sampleUsageRecord] (by simp)).2 rfl).1.trans
    (by rfl)

theorem NumOffenses_eq (record : CookbookRecord) :
    record.NumOffenses = (record.Files.map fun f => f.Offenses.length).sum := by
  unfold CookbookRecord.NumOffenses
  rw [foldl_add_length]
  omega

theorem NumCorrectable_eq (record : CookbookRecord) :
    record.NumCorrectable =
      (record.Files.map fun f => (f.Offenses.filter fun o => o.Correctable).length).sum := by
  unfold CookbookRecord.NumCorrectable
  rw [foldl_add_length]
  omega

theorem sum_map_filter_keep (g : CookbookFile → Nat) (keep : CookbookFile → Bool)
    (files : List CookbookFile) (h : ∀ f, keep f = false → g f = 0) :
    ((files.filter keep).map g).sum = (files.map g).sum := by
  induction files with
  | nil => rfl
  | cons f rest ih =>
    by_cases hk : keep f = true
    · simp [List.filter_cons, hk, ih]
    · have hk2 : keep f = false := by simpa using hk
      simp [List.filter_cons, hk2, ih, h f hk2]

theorem filesWithOffenses_filter (keep : CookbookFile → Bool) (files : List CookbookFile)
    (h : ∀ f : CookbookFile, f.Offenses ≠ [] → keep f = true) :
    filesWithOffenses (files.filter keep) = filesWithOffenses files := by
  unfold filesWithOffenses
  rw [List.filter_filter]
  refine List.filter_congr fun f _ => ?_
  by_cases hf : f.Offenses = []
  · simp [hf]
  · simp [hf, h f hf]

theorem specTXTBlock_filter (keep : CookbookFile → Bool) (record : CookbookRecord)
    (h : ∀ f : CookbookFile, f.Offenses ≠ [] → keep f = true) :
    specTXTBlock true { record with Files := record.Files.filter keep } =
      specTXTBlock true record := by
  have hzero : ∀ f : CookbookFile, keep f = false → f.Offenses = [] := by
    intro f hk
    by_contra hne
    rw [h f hne] at hk
    exact Bool.noConfusion hk
  have hn : CookbookRecord.NumOffenses { record with Files := record.Files.filter keep } =
      record.NumOffenses := by
    rw [NumOffenses_eq, NumOffenses_eq]
    exact sum_map_filter_keep _ keep record.Files fun f hk => by simp [hzero f hk]
  have hm : CookbookRecord.NumCorrectable { record with Files := record.Files.filter keep } =
      record.NumCorrectable := by
    rw [NumCorrectable_eq, NumCorrectable_eq]
    exact sum_map_filter_keep _ keep record.Files fun f hk => by simp [hzero f hk]
  have hl : specTXTListing (record.Files.filter keep) = specTXTListing record.Files := by
    unfold specTXTListing
    rw [filesWithOffenses_filter keep record.Files h]
  simp only [specTXTBlock, specTXTCookstyle, if_true, hn, hm, hl]
  rfl

/-- Claim C17: with `RunCookstyle` true, the listing in the block of a record
has one entry `   - <Path>:` for each file of the record that has at least one
offense, and for no other file, in stored order, each followed by one line per
offense of the file in stored order with the cop name, the `Correctable`
boolean and the message; a file without offenses adds no text, so leaving
files without offenses out of the `Files` of the records changes nothing in
what `MakeCookbooksReportTXT` returns. -/
theorem cookbooksTXT_listing (records : List CookbookRecord) (h : records ≠ []) :
    (∀ (w : String) (files : List CookbookFile),
      cookbooksTXTFiles w files =
        w ++ concatStrings ((files.filter fun f => f.Offenses ≠ []).map fun f =>
          "\n   - " ++ f.Path ++ ":" ++
            concatStrings (f.Offenses.map fun o =>
              "\n\t" ++ o.CopName ++ " (" ++ toString o.Correctable ++ ") " ++ o.Message))) ∧
    (MakeCookbooksReportTXT (some ⟨records, true⟩)).Report =
      concatStrings (records.map fun record =>
        specTXTHeader record ++ specTXTNodes record ++
          ("  Violations: " ++ toString record.NumOffenses ++ "\n" ++
            ("  Auto correctable: " ++ toString record.NumCorrectable ++ "\n") ++
            "  Files and offenses:" ++ cookbooksTXTFiles "" record.Files ++
            (if record.NumOffenses = 0 then " none\n" else "\n"))) ∧
    (∀ keep : CookbookRecord → CookbookFile → Bool,
      (∀ (record : CookbookRecord) (f : CookbookFile), f.Offenses ≠ [] → keep record f = true) →
      MakeCookbooksReportTXT (some
        ⟨records.map (fun record => { record with Files := record.Files.filter (keep record) }),
          true⟩) =
      MakeCookbooksReportTXT (some ⟨records, true⟩)) := by
  refine ⟨?_, ?_, ?_⟩
  · intro w files
    rw [cookbooksTXTFiles_eq]
    rfl
  · rw [MakeCookbooksReportTXT_eq true records h]
    simp only [cookbooksTXTFiles_eq, String.empty_append]
    rfl
  · intro keep hkeep
    rw [MakeCookbooksReportTXT_eq true records h,
      MakeCookbooksReportTXT_eq true _ (by simpa using h), List.map_map, List.map_map]
    congr 1
    · congr 1
      refine List.map_congr_left fun record _ => ?_
      exact specTXTBlock_filter (keep record) record (hkeep record)

set_option maxRecDepth 8000 in
theorem cookbooksTXT_listing_witness :
    (MakeCookbooksReportTXT (some ⟨sampleRecords, true⟩)).Report =
      "> Cookbook: my-cookbook (1.0)\n  Nodes affected: node-1, node-2\n" ++
      "  Violations: 2\n  Auto correctable: 1\n  Files and offenses:" ++
      "\n   - /path/to/file.rb:" ++
      "\n\tChefDeprecations/Blah (true) some description" ++
      "\n\tChefStyle/Other (false) another one\n" ++
      "> Cookbook: their-cookbook (1.1)\n  Nodes affected: none\n" ++
      "  Violations: 1\n  Auto correctable: 0\n  Files and offenses:" ++
      "\n   - recipes/default.rb:" ++
      "\n\tChefModernize/Old (false) old, very\n" :=
  (cookbooksTXT_listing sampleRecords (by decide)).2.1.trans (by rfl)

theorem sum_lengths_eq_flatMap (files : List CookbookFile) :
    (files.map fun f => f.Offenses.length).sum =
      (files.flatMap fun f => f.Offenses).length := by
  rw [List.length_flatMap]
  rfl

theorem sum_correctable_eq_flatMap (files : List CookbookFile) :
    (files.map fun f => (f.Offenses.filter fun o => o.Correctable).length).sum =
      ((files.flatMap fun f => f.Offenses).filter fun o => o.Correctable).length := by
  induction files with
  | nil => rfl
  | cons f rest ih =>
    simp only [List.map_cons, List.sum_cons, List.flatMap_cons, List.filter_append,
      List.length_append, ih]

theorem filesWithOffenses_eq_nil_iff (files : List CookbookFile) :
    (files.map fun f => f.Offenses.length).sum = 0 ↔ filesWithOffenses files = [] := by
  unfold filesWithOffenses
  induction files with
  | nil => simp
  | cons f rest ih =>
    by_cases hf : f.Offenses = []
    · simp [List.filter_cons, hf, ih]
    · have hlen : f.Offenses.length ≠ 0 := fun h0 => hf (List.length_eq_zero.mp h0)
      simp [List.filter_cons, hf, hlen]

theorem listed_offenses_length (files : List CookbookFile) :
    ((filesWithOffenses files).flatMap fun f => f.Offenses).length =
      (files.map fun f => f.Offenses.length).sum := by
  rw [← sum_lengths_eq_flatMap]
  unfold filesWithOffenses
  refine sum_map_filter_keep (fun f => f.Offenses.length) _ files ?_
  intro f hk
  simpa using hk

/-- Claim C20: with `RunCookstyle` true the block of a record shows
`  Violations: n`, where `n` is the total number of offenses of all the files
of the record, and `  Auto correctable: m`, where `m` is the number of those
offenses that are correctable, so that `m ≤ n`; `n` is the number of offense
lines listed in the block; and the line `  Files and offenses:` is completed
with ` none` exactly when no file entry is listed, which is when `n = 0`. -/
theorem cookbooksTXT_counts (records : List CookbookRecord) (h : records ≠ []) :
    (MakeCookbooksReportTXT (some ⟨records, true⟩)).Report =
      concatStrings (records.map fun record =>
        specTXTHeader record ++ specTXTNodes record ++
          ("  Violations: " ++
              toString (record.Files.flatMap fun f => f.Offenses).length ++ "\n" ++
            ("  Auto correctable: " ++
              toString ((record.Files.flatMap fun f => f.Offenses).filter
                fun o => o.Correctable).length ++ "\n") ++
            "  Files and offenses:" ++ specTXTListing record.Files ++
            (if filesWithOffenses record.Files = [] then " none\n" else "\n"))) ∧
    ∀ record : CookbookRecord,
      record.NumOffenses = (record.Files.flatMap fun f => f.Offenses).length ∧
      record.NumCorrectable =
        ((record.Files.flatMap fun f => f.Offenses).filter fun o => o.Correctable).length ∧
      record.NumCorrectable ≤ record.NumOffenses ∧
      record.NumOffenses =
        ((filesWithOffenses record.Files).flatMap fun f => f.Offenses).length ∧
      (record.NumOffenses = 0 ↔ filesWithOffenses record.Files = []) := by
  have hn : ∀ record : CookbookRecord,
      record.NumOffenses = (record.Files.flatMap fun f => f.Offenses).length := by
    intro record
    rw [NumOffenses_eq, sum_lengths_eq_flatMap]
  have hm : ∀ record : CookbookRecord, record.NumCorrectable =
      ((record.Files.flatMap fun f => f.Offenses).filter fun o => o.Correctable).length := by
    intro record
    rw [NumCorrectable_eq, sum_correctable_eq_flatMap]
  have hzero : ∀ record : CookbookRecord,
      record.NumOffenses = 0 ↔ filesWithOffenses record.Files = [] := by
    intro record
    rw [NumOffenses_eq]
    exact filesWithOffenses_eq_nil_iff record.Files
  refine ⟨?_, ?_⟩
  · rw [MakeCookbooksReportTXT_eq true records h]
    simp only
    congr 1
    refine List.map_congr_left fun record _ => ?_
    simp only [specTXTBlock, specTXTCookstyle, if_true, ← hn record, ← hm record]
    by_cases hz : record.NumOffenses = 0
    · simp only [hz, (hzero record).mp hz, if_true]
    · have hne : ¬ filesWithOffenses record.Files = [] := fun hnil => hz ((hzero record).mpr hnil)
      simp only [hz, hne, if_false]
  · intro record
    refine ⟨hn record, hm record, ?_, ?_, hzero record⟩
    · rw [hn record, hm record]
      exact List.length_filter_le _ _
    · rw [NumOffenses_eq, listed_offenses_length]

set_option maxRecDepth 8000 in
theorem cookbooksTXT_counts_witness :
    (MakeCookbooksReportTXT (some ⟨[sampleFailedRecord, sampleUsageRecord], true⟩)).Report =
      "> Cookbook: my-cookbook (1.0)\n  Nodes affected: node-1, node-2\n" ++
      "  Violations: 0\n  Auto correctable: 0\n  Files and offenses: none\n" ++
      "> Cookbook: their-cookbook (1.1)\n  Nodes affected: none\n" ++
      "  Violations: 1\n  Auto correctable: 0\n  Files and offenses:" ++
      "\n   - recipes/default.rb:" ++
      "\n\tChefModernize/Old (false) old, very\n" :=
  (cookbooksTXT_counts [sampleFailedRecord, sampleUsageRecord] (by simp)).1.trans (by rfl)

/-! ## The plain-text node report -/

theorem append_ne_empty_of_left (a b : String) (h : a ≠ "") : a ++ b ≠ "" := by
  intro hab
  apply h
  have hdata : (a ++ b).data = [] := by rw [hab]
  rw [String.data_append] at hdata
  exact String.ext (List.append_eq_nil.mp hdata).1

theorem stringOrUnknownPlaceholder_pretty (record : NodeReportItem) :
    stringOrUnknownPlaceholder record.OSVersionPretty =
      if record.OS = "" then unknownPlaceholder
      else record.OS ++ " v" ++ record.OSVersion := by
  unfold stringOrUnknownPlaceholder NodeReportItem.OSVersionPretty
  by_cases hos : record.OS = ""
  · simp [hos]
  · have hne : record.OS ++ " v" ++ record.OSVersion ≠ "" := by
      rw [String.append_assoc]
      exact append_ne_empty_of_left _ _ hos
    simp [hos, hne]

theorem nodesTXTStep_eq (w : String) (record : NodeReportItem) :
    nodesTXTStep w record = w ++ specNodeBlock record := by
  unfold nodesTXTStep specNodeBlock
  simp only [stringOrUnknownPlaceholder_pretty]
  unfold stringOrUnknownPlaceholder NodeReportItem.CookbooksList
  cases record.CookbookVersions with
  | nil => simp only [List.map_nil, List.length_nil, if_true, String.append_assoc]
  | cons cbv rest =>
    simp only [List.map_cons, List.length_cons, Nat.add_one_ne_zero, if_false,
      String.append_assoc, reduceCtorEq]

theorem MakeNodesReportTXT_report (records : List NodeReportItem) (h : records ≠ []) :
    (MakeNodesReportTXT records).Report = concatStrings (records.map specNodeBlock) := by
  have hlen : records.length ≠ 0 := fun h0 => h (List.length_eq_zero.mp h0)
  simp only [MakeNodesReportTXT, hlen, if_false]
  rw [foldl_append_text nodesTXTStep specNodeBlock nodesTXTStep_eq records ""]
  simp

/-- Claim C18: for a non-empty sequence of node records the report of
`MakeNodesReportTXT` is, in input order, one block of four lines per node:
`> Node: <Name>`; `  Chef Version: ` and the chef version, or the placeholder
for an unknown value when it is empty; `  Operating System: ` and
`<OS> v<OSVersion>`, or the same placeholder when `OS` is empty; and
`  Cookbooks Applied: none` when the node has no cookbook versions, otherwise
`  Cookbooks Applied: ` and the `Name(Version)` tokens in stored order joined
by `, `. -/
theorem nodesTXT_blocks (records : List NodeReportItem) (h : records ≠ []) :
    (MakeNodesReportTXT records).Report =
      concatStrings (records.map fun record =>
        "> Node: " ++ record.Name ++ "\n" ++
        ("  Chef Version: " ++
          (if record.ChefVersion = "" then unknownPlaceholder else record.ChefVersion) ++
          "\n") ++
        ("  Operating System: " ++
          (if record.OS = "" then unknownPlaceholder
            else record.OS ++ " v" ++ record.OSVersion) ++ "\n") ++
        (if record.CookbookVersions = [] then "  Cookbooks Applied: none\n"
          else "  Cookbooks Applied: " ++
            stringsJoin (record.CookbookVersions.map CookbookVersion.String) ", " ++ "\n")) := by
  rw [MakeNodesReportTXT_report records h]
  rfl

set_option maxRecDepth 8000 in
theorem nodesTXT_blocks_witness :
    (MakeNodesReportTXT
      [⟨"node1", "", "windows", "10.1", [⟨"mycookbook", "1.0"⟩, ⟨"test", "9.9"⟩]⟩,
       ⟨"node2", "13.11", "", "7", []⟩]).Report =
      "> Node: node1\n  Chef Version: " ++ unknownPlaceholder ++ "\n" ++
      "  Operating System: windows v10.1\n" ++
      "  Cookbooks Applied: mycookbook(1.0), test(9.9)\n" ++
      "> Node: node2\n  Chef Version: 13.11\n" ++
      "  Operating System: " ++ unknownPlaceholder ++ "\n" ++
      "  Cookbooks Applied: none\n" :=
  (nodesTXT_blocks
    [⟨"node1", "", "windows", "10.1", [⟨"mycookbook", "1.0"⟩, ⟨"test", "9.9"⟩]⟩,
     ⟨"node2", "13.11", "", "7", []⟩] (by simp)).trans (by rfl)

/-! ## Lemmas on reading back what the CSV writer wrote -/

theorem csvNormalize_of_crSafe : ∀ l : List Char, crSafe l = true → csvNormalize l = l
  | [], _ => rfl
  | [c], h => by
    have hc : c ≠ '\r' := by simpa [crSafe] using h
    simp [csvNormalize, hc]
  | c :: d :: rest, h => by
    simp only [crSafe, Bool.and_eq_true, Bool.not_eq_true', decide_eq_false_iff_not] at h
    have ih := csvNormalize_of_crSafe (d :: rest) h.2
    simp only [csvNormalize, h.1, if_false, ih]

theorem crSafe_append : ∀ a b : List Char, crSafe a = true → crSafe b = true →
    crSafe (a ++ b) = true
  | [], b, _, hb => by simpa using hb
  | [c], b, ha, hb => by
    have hc : c ≠ '\r' := by simpa [crSafe] using ha
    cases b with
    | nil => simpa using ha
    | cons d rest => simp [crSafe, hc, hb]
  | c :: d :: rest, b, ha, hb => by
    simp only [crSafe, Bool.and_eq_true, Bool.not_eq_true', decide_eq_false_iff_not] at ha
    have ih := crSafe_append (d :: rest) b ha.2 hb
    simp only [List.cons_append] at ih ⊢
    simp only [crSafe, Bool.and_eq_true, Bool.not_eq_true', decide_eq_false_iff_not]
    exact ⟨ha.1, ih⟩

theorem crSafe_of_no_cr : ∀ l : List Char, (∀ c ∈ l, c ≠ '\r') → crSafe l = true
  | [], _ => rfl
  | [c], h => by simp [crSafe, h c (List.mem_singleton.mpr rfl)]
  | c :: d :: rest, h => by
    have hc : c ≠ '\r' := h c (List.mem_cons_self _ _)
    have ih := crSafe_of_no_cr (d :: rest) fun x hx => h x (List.mem_cons_of_mem _ hx)
    simp [crSafe, hc, ih]

theorem csvEscape_cons_head (d : Char) (rest : List Char) :
    ∃ tail, csvEscape (d :: rest) = d :: tail := by
  unfold csvEscape
  by_cases hd : d = '"'
  · exact ⟨'"' :: csvEscape rest, by simp [hd]⟩
  · exact ⟨csvEscape rest, by simp [hd]⟩

theorem crSafe_csvEscape : ∀ l : List Char, hasCRLF l = false →
    crSafe (csvEscape l ++ ['"']) = true
  | [], _ => by decide
  | [c], _ => by
    by_cases hc : c = '"'
    · subst hc
      decide
    · simp [csvEscape, hc, crSafe]
  | c :: d :: rest, h => by
    simp only [hasCRLF, Bool.or_eq_false_iff, decide_eq_false_iff_not] at h
    have ih := crSafe_csvEscape (d :: rest) h.2
    obtain ⟨tail, htail⟩ := csvEscape_cons_head d rest
    rw [htail] at ih
    have hstep : csvEscape (c :: d :: rest) =
        if c = '"' then '"' :: '"' :: d :: tail else c :: d :: tail := by
      rw [csvEscape, htail]
    rw [hstep]
    by_cases hc : c = '"'
    · simp only [hc, if_true, List.cons_append] at ih ⊢
      simp only [crSafe, Bool.and_eq_true, Bool.not_eq_true', decide_eq_false_iff_not]
      exact ⟨by decide, fun hcr => absurd hcr.1 (by decide), ih⟩
    · simp only [hc, if_false, List.cons_append] at ih ⊢
      simp only [crSafe, Bool.and_eq_true, Bool.not_eq_true', decide_eq_false_iff_not]
      exact ⟨h.1, ih⟩

theorem unquoted_chars (field : String) (h : fieldNeedsQuotes field = false) :
    ∀ c ∈ field.data, c ≠ '\n' ∧ c ≠ '\r' ∧ c ≠ '"' ∧ c ≠ ',' := by
  intro c hc
  unfold fieldNeedsQuotes at h
  by_cases h1 : field = ""
  · subst h1
    simp at hc
  · by_cases h2 : field = "\\."
    · simp [h1, h2] at h
    · simp only [h1, h2, if_false] at h
      by_cases h3 : field.data.any (fun c => c = '\n' || c = '\r' || c = '"' || c = ',') = true
      · simp [h3] at h
      · have h4 : field.data.any (fun c => c = '\n' || c = '\r' || c = '"' || c = ',') = false := by
          simpa using h3
        rw [List.any_eq_false] at h4
        have hnone := h4 c hc
        simp only [Bool.or_eq_true, decide_eq_true_eq, not_or] at hnone
        exact ⟨hnone.1.1.1, hnone.1.1.2, hnone.1.2, hnone.2⟩

theorem crSafe_csvField (field : String) (h : hasCRLF field.data = false) :
    crSafe (csvField field).data = true := by
  unfold csvField
  by_cases hq : fieldNeedsQuotes field = true
  · simp only [hq, if_true, String.data_append]
    rw [List.append_assoc]
    exact crSafe_append _ _ (by decide) (crSafe_csvEscape field.data h)
  · have hq2 : fieldNeedsQuotes field = false := by simpa using hq
    simp only [hq, if_false]
    exact crSafe_of_no_cr _ fun c hc => (unquoted_chars field hq2 c hc).2.1

theorem crSafe_csvLine : ∀ fields : List String,
    (∀ field ∈ fields, hasCRLF field.data = false) → crSafe (csvLine fields) = true
  | [], _ => by decide
  | [f], h => by
    simp only [csvLine]
    exact crSafe_append _ _ (crSafe_csvField f (h f (List.mem_singleton.mpr rfl))) (by decide)
  | f :: g :: rest, h => by
    simp only [csvLine]
    have ih := crSafe_csvLine (g :: rest) fun x hx => h x (List.mem_cons_of_mem _ hx)
    refine crSafe_append _ _ (crSafe_csvField f (h f (List.mem_cons_self _ _))) ?_
    exact crSafe_append [','] _ (by decide) ih

theorem csvWriteFields_later (fields : List String) :
    ∀ n : Nat, 0 < n →
      (csvWriteFields "" n fields).data ++ ['\n'] =
        match fields with
        | [] => ['\n']
        | f :: rest => ',' :: csvLine (f :: rest) := by
  induction fields with
  | nil => intro n _; rfl
  | cons f rest ih =>
    intro n hn
    have hstep : csvWriteFields "" n (f :: rest) =
        "," ++ csvField f ++ csvWriteFields "" (n + 1) rest := by
      rw [csvWriteFields, csvWriteFields_append]
      simp [hn]
    have hrest := ih (n + 1) (Nat.succ_pos n)
    rw [hstep]
    simp only [String.data_append, List.append_assoc]
    rw [hrest]
    cases rest with
    | nil => rfl
    | cons g rest2 => simp [csvLine]

theorem csvWrite_data (fields : List String) :
    (csvWrite "" fields).data = csvLine fields := by
  unfold csvWrite
  cases fields with
  | nil => rfl
  | cons f rest =>
    have hstep : csvWriteFields "" 0 (f :: rest) = csvField f ++ csvWriteFields "" 1 rest := by
      rw [csvWriteFields, csvWriteFields_append]
      simp
    have hrest := csvWriteFields_later rest 1 (Nat.succ_pos 0)
    rw [hstep]
    simp only [String.data_append, List.append_assoc]
    rw [hrest]
    cases rest with
    | nil => rfl
    | cons g rest2 => simp [csvLine]

theorem specCSV_data (rows : List (List String)) :
    (specCSV rows).data = rows.flatMap csvLine := by
  induction rows with
  | nil => rfl
  | cons row rest ih =>
    rw [specCSV_cons, String.data_append, ih, csvWrite_data, List.flatMap_cons]

theorem crSafe_specCSV (rows : List (List String))
    (h : ∀ row ∈ rows, ∀ field ∈ row, hasCRLF field.data = false) :
    crSafe (specCSV rows).data = true := by
  rw [specCSV_data]
  induction rows with
  | nil => rfl
  | cons row rest ih =>
    rw [List.flatMap_cons]
    exact crSafe_append _ _ (crSafe_csvLine row (h row (List.mem_cons_self _ _)))
      (ih fun r hr => h r (List.mem_cons_of_mem _ hr))

theorem csvParse_unquoted_run (record : List String) (records : List (List String))
    (tail : List Char) (l : List Char) :
    ∀ acc : List Char, (∀ c ∈ l, c ≠ '\n' ∧ c ≠ '\r' ∧ c ≠ '"' ∧ c ≠ ',') →
      csvParse .unquoted acc record records (l ++ tail) =
        csvParse .unquoted (acc ++ l) record records tail := by
  induction l with
  | nil => intro acc _; simp
  | cons c cs ih =>
    intro acc h
    obtain ⟨h1, -, h3, h4⟩ := h c (List.mem_cons_self _ _)
    have hcs := ih (acc ++ [c]) fun x hx => h x (List.mem_cons_of_mem _ hx)
    simp only [List.cons_append, csvParse, h1, h3, h4, if_false]
    exact hcs.trans (by rw [List.append_assoc]; rfl)

theorem csvParse_quoted_run (record : List String) (records : List (List String))
    (tail : List Char) (l : List Char) :
    ∀ acc : List Char,
      csvParse .quoted acc record records (csvEscape l ++ '"' :: tail) =
        csvParse .quoteSeen (acc ++ l) record records tail := by
  induction l with
  | nil => intro acc; simp [csvEscape, csvParse]
  | cons c cs ih =>
    intro acc
    by_cases hc : c = '"'
    · subst hc
      have hcs := ih (acc ++ ['"'])
      simp only [csvEscape, if_true, List.cons_append, csvParse]
      exact hcs.trans (by rw [List.append_assoc]; rfl)
    · have hcs := ih (acc ++ [c])
      simp only [csvEscape, hc, if_false, List.cons_append, csvParse]
      exact hcs.trans (by rw [List.append_assoc]; rfl)

theorem csvField_data_quoted (f : String) (hq : fieldNeedsQuotes f = true) :
    (csvField f).data = '"' :: (csvEscape f.data ++ ['"']) := by
  unfold csvField
  simp only [hq, if_true, String.data_append]
  rfl

theorem csvField_data_unquoted (f : String) (hq : fieldNeedsQuotes f = false) :
    (csvField f).data = f.data := by
  unfold csvField
  simp [hq]

theorem csvParse_field_comma (record : List String) (records : List (List String))
    (f : String) (t : List Char) :
    csvParse .fieldStart [] record records ((csvField f).data ++ ',' :: t) =
      csvParse .fieldStart [] (record ++ [f]) records t := by
  by_cases hq : fieldNeedsQuotes f = true
  · rw [csvField_data_quoted f hq]
    have hshape : '"' :: (csvEscape f.data ++ ['"']) ++ ',' :: t =
        '"' :: (csvEscape f.data ++ '"' :: ',' :: t) := by simp
    rw [hshape, csvParse]
    simp only [show ('"' : Char) ≠ '\n' by decide, if_false, if_true]
    rw [csvParse_quoted_run, List.nil_append, csvParse]
    simp only [show (',' : Char) ≠ '"' by decide, if_false, if_true]
  · have hq2 : fieldNeedsQuotes f = false := by simpa using hq
    rw [csvField_data_unquoted f hq2]
    have hchars := unquoted_chars f hq2
    cases hfd : f.data with
    | nil =>
      have hf : f = "" := String.ext hfd
      subst hf
      rw [List.nil_append, csvParse]
      simp only [show (',' : Char) ≠ '\n' by decide, show (',' : Char) ≠ '"' by decide,
        if_false, if_true]
    | cons c cs =>
      rw [hfd] at hchars
      obtain ⟨h1, -, h3, h4⟩ := hchars c (List.mem_cons_self _ _)
      have hf : f = String.mk (c :: cs) := String.ext hfd
      rw [List.cons_append, csvParse]
      simp only [h1, h3, h4, if_false]
      rw [csvParse_unquoted_run record records (',' :: t) cs [c]
        fun x hx => hchars x (List.mem_cons_of_mem _ hx), csvParse]
      simp only [show (',' : Char) ≠ '\n' by decide, show (',' : Char) ≠ '"' by decide,
        if_false, if_true]
      rw [hf]
      rfl

theorem csvParse_first_field_comma (records : List (List String)) (f : String)
    (t : List Char) :
    csvParse .recordStart [] [] records ((csvField f).data ++ ',' :: t) =
      csvParse .fieldStart [] [f] records t := by
  by_cases hq : fieldNeedsQuotes f = true
  · rw [csvField_data_quoted f hq]
    have hshape : '"' :: (csvEscape f.data ++ ['"']) ++ ',' :: t =
        '"' :: (csvEscape f.data ++ '"' :: ',' :: t) := by simp
    rw [hshape, csvParse]
    simp only [show ('"' : Char) ≠ '\n' by decide, if_false, if_true]
    rw [csvParse_quoted_run, List.nil_append, csvParse]
    simp only [show (',' : Char) ≠ '"' by decide, if_false, if_true]
    rfl
  · have hq2 : fieldNeedsQuotes f = false := by simpa using hq
    rw [csvField_data_unquoted f hq2]
    have hchars := unquoted_chars f hq2
    cases hfd : f.data with
    | nil =>
      have hf : f = "" := String.ext hfd
      subst hf
      rw [List.nil_append, csvParse]
      simp only [show (',' : Char) ≠ '\n' by decide, show (',' : Char) ≠ '"' by decide,
        if_false, if_true]
    | cons c cs =>
      rw [hfd] at hchars
      obtain ⟨h1, -, h3, h4⟩ := hchars c (List.mem_cons_self _ _)
      have hf : f = String.mk (c :: cs) := String.ext hfd
      rw [List.cons_append, csvParse]
      simp only [h1, h3, h4, if_false]
      rw [csvParse_unquoted_run [] records (',' :: t) cs [c]
        fun x hx => hchars x (List.mem_cons_of_mem _ hx), csvParse]
      simp only [show (',' : Char) ≠ '\n' by decide, show (',' : Char) ≠ '"' by decide,
        if_false, if_true]
      rw [hf]
      rfl

theorem csvParse_field_line_feed (record : List String) (records : List (List String))
    (f : String) (t : List Char) :
    csvParse .fieldStart [] record records ((csvField f).data ++ '\n' :: t) =
      match csvEndRecord records (record ++ [f]) with
      | none => none
      | some records => csvParse .recordStart [] [] records t := by
  by_cases hq : fieldNeedsQuotes f = true
  · rw [csvField_data_quoted f hq]
    have hshape : '"' :: (csvEscape f.data ++ ['"']) ++ '\n' :: t =
        '"' :: (csvEscape f.data ++ '"' :: '\n' :: t) := by simp
    rw [hshape, csvParse]
    simp only [show ('"' : Char) ≠ '\n' by decide, if_false, if_true]
    rw [csvParse_quoted_run, List.nil_append, csvParse]
    simp only [show ('\n' : Char) ≠ '"' by decide, show ('\n' : Char) ≠ ',' by decide,
      if_false, if_true]
  · have hq2 : fieldNeedsQuotes f = false := by simpa using hq
    rw [csvField_data_unquoted f hq2]
    have hchars := unquoted_chars f hq2
    cases hfd : f.data with
    | nil =>
      have hf : f = "" := String.ext hfd
      subst hf
      rw [List.nil_append, csvParse]
      simp only [if_true]
    | cons c cs =>
      rw [hfd] at hchars
      obtain ⟨h1, -, h3, h4⟩ := hchars c (List.mem_cons_self _ _)
      have hf : f = String.mk (c :: cs) := String.ext hfd
      rw [List.cons_append, csvParse]
      simp only [h1, h3, h4, if_false]
      rw [csvParse_unquoted_run record records ('\n' :: t) cs [c]
        fun x hx => hchars x (List.mem_cons_of_mem _ hx), csvParse]
      simp only [if_true]
      rw [hf]
      rfl

theorem csvParse_line_rest : ∀ (fields : List String) (record : List String)
    (records : List (List String)) (t : List Char), fields ≠ [] →
    csvParse .fieldStart [] record records (csvLine fields ++ t) =
      match csvEndRecord records (record ++ fields) with
      | none => none
      | some records => csvParse .recordStart [] [] records t
  | [], _, _, _, h => absurd rfl h
  | [f], record, records, t, _ => by
    have hshape : csvLine [f] ++ t = (csvField f).data ++ '\n' :: t := by
      simp [csvLine]
    rw [hshape, csvParse_field_line_feed]
  | f :: g :: rest, record, records, t, _ => by
    have hshape : csvLine (f :: g :: rest) ++ t =
        (csvField f).data ++ ',' :: (csvLine (g :: rest) ++ t) := by
      simp [csvLine]
    rw [hshape, csvParse_field_comma,
      csvParse_line_rest (g :: rest) (record ++ [f]) records t (List.cons_ne_nil _ _)]
    simp

theorem csvParse_line (fields : List String) (records : List (List String)) (t : List Char)
    (h : 2 ≤ fields.length) :
    csvParse .recordStart [] [] records (csvLine fields ++ t) =
      match csvEndRecord records fields with
      | none => none
      | some records => csvParse .recordStart [] [] records t := by
  match fields, h with
  | f :: g :: rest, _ =>
    have hshape : csvLine (f :: g :: rest) ++ t =
        (csvField f).data ++ ',' :: (csvLine (g :: rest) ++ t) := by
      simp [csvLine]
    rw [hshape, csvParse_first_field_comma,
      csvParse_line_rest (g :: rest) [f] records t (List.cons_ne_nil _ _)]
    rfl

theorem csvParse_rows (n : Nat) (hn : 2 ≤ n) (rows : List (List String)) :
    ∀ records : List (List String),
      (∀ row ∈ records, row.length = n) → (∀ row ∈ rows, row.length = n) →
      csvParse .recordStart [] [] records (rows.flatMap csvLine) = some (records ++ rows) := by
  induction rows with
  | nil => intro records _ _; simp [csvParse]
  | cons row rest ih =>
    intro records hrecords hrows
    have hrow : row.length = n := hrows row (List.mem_cons_self _ _)
    have hend : csvEndRecord records row = some (records ++ [row]) := by
      unfold csvEndRecord
      cases records with
      | nil => rfl
      | cons first others =>
        have hfirst : first.length = n := hrecords first (List.mem_cons_self _ _)
        simp [hfirst, hrow]
    rw [List.flatMap_cons, csvParse_line row records _ (by omega), hend]
    simp only
    rw [ih (records ++ [row])]
    · simp
    · intro r hr
      rcases List.mem_append.mp hr with hr | hr
      · exact hrecords r hr
      · rw [List.mem_singleton.mp hr]
        exact hrow
    · exact fun r hr => hrows r (List.mem_cons_of_mem _ hr)

theorem csvReadAll_specCSV (n : Nat) (hn : 2 ≤ n) (rows : List (List String))
    (hlen : ∀ row ∈ rows, row.length = n)
    (hcr : ∀ row ∈ rows, ∀ field ∈ row, hasCRLF field.data = false) :
    csvReadAll (specCSV rows) = some rows := by
  unfold csvReadAll
  rw [csvNormalize_of_crSafe _ (crSafe_specCSV rows hcr), specCSV_data,
    csvParse_rows n hn rows [] (by simp) hlen]
  simp

/-! ## Reading the CSV reports back -/

/-- Claim C19, as stated, fails for the reader of `encoding/csv`: a node name
with a carriage return directly before a line feed is written inside quotes
as it is, and the reader drops the carriage return, so the record read back
is not the record that was written. -/
theorem csv_round_trip_fails_on_crlf :
    csvReadAll (MakeNodesReportCSV [⟨"web\r\n1", "15.0", "ubuntu", "18.04", []⟩]).Report =
      some [["Node Name", "Chef Version", "Operating System", "Cookbooks"],
        ["web\n1", "15.0", "ubuntu v18.04", "None"]] ∧
    csvReadAll (MakeNodesReportCSV [⟨"web\r\n1", "15.0", "ubuntu", "18.04", []⟩]).Report ≠
      some [["Node Name", "Chef Version", "Operating System", "Cookbooks"],
        ["web\r\n1", "15.0", "ubuntu v18.04", "None"]] := by
  decide

/-- Claim C19, amended: for non-empty inputs in which no field, as it is
written, has a carriage return directly before a line feed, and whatever else
the fields hold (commas, double quotes, leading spaces, carriage returns, line
feeds), reading the report of `MakeNodesReportCSV` and of
`MakeCookbooksReportCSV` back with the reader of `encoding/csv` gives exactly
the header record followed by the detail records that were written, field for
field; and the text of the report ends with a line feed. -/
theorem csv_round_trip (nodes : List NodeReportItem) (records : List CookbookRecord)
    (runCookstyle : Bool) (hnodes : nodes ≠ []) (hrecords : records ≠ [])
    (hnodeFields : ∀ record ∈ nodes, ∀ field ∈ specNodeRow record,
      hasCRLF field.data = false)
    (hrecordFields : ∀ record ∈ records, ∀ row ∈ specCookbookRows runCookstyle record,
      ∀ field ∈ row, hasCRLF field.data = false) :
    csvReadAll (MakeNodesReportCSV nodes).Report =
      some (nodesTableHeaders :: nodes.map specNodeRow) ∧
    (∃ l, (MakeNodesReportCSV nodes).Report.data = l ++ ['\n']) ∧
    csvReadAll (MakeCookbooksReportCSV (some ⟨records, runCookstyle⟩)).Report =
      some (cookbooksTableHeaders runCookstyle ::
        records.flatMap (specCookbookRows runCookstyle)) ∧
    (∃ l, (MakeCookbooksReportCSV (some ⟨records, runCookstyle⟩)).Report.data =
      l ++ ['\n']) := by
  rw [MakeNodesReportCSV_report nodes hnodes,
    MakeCookbooksReportCSV_report runCookstyle records hrecords]
  refine ⟨?_, specCSV_ends_with_line_feed _ (List.cons_ne_nil _ _), ?_,
    specCSV_ends_with_line_feed _ (List.cons_ne_nil _ _)⟩
  · refine csvReadAll_specCSV 4 (by omega) _ ?_ ?_
    · intro row hrow
      rcases List.mem_cons.mp hrow with hr | hr
      · subst hr
        rfl
      · obtain ⟨record, -, rfl⟩ := List.mem_map.mp hr
        rfl
    · intro row hrow
      rcases List.mem_cons.mp hrow with hr | hr
      · subst hr
        decide
      · obtain ⟨record, hrecord, rfl⟩ := List.mem_map.mp hr
        exact hnodeFields record hrecord
  · refine csvReadAll_specCSV (if runCookstyle then 7 else 3) (by cases runCookstyle <;> simp)
      _ ?_ ?_
    · intro row hrow
      rcases List.mem_cons.mp hrow with hr | hr
      · subst hr
        cases runCookstyle <;> rfl
      · obtain ⟨record, -, hmem⟩ := List.mem_flatMap.mp hr
        cases runCookstyle with
        | false =>
          simp only [specCookbookRows, Bool.false_eq_true, if_false, List.mem_singleton] at hmem
          subst hmem
          rfl
        | true =>
          simp only [specCookbookRows, if_true, specOffenseRows, List.mem_flatMap,
            List.mem_map] at hmem
          obtain ⟨file, -, offense, -, rfl⟩ := hmem
          rfl
    · intro row hrow
      rcases List.mem_cons.mp hrow with hr | hr
      · subst hr
        cases runCookstyle <;> decide
      · obtain ⟨record, hrecord, hmem⟩ := List.mem_flatMap.mp hr
        exact hrecordFields record hrecord row hmem

theorem csv_round_trip_witness :
    csvReadAll (MakeNodesReportCSV
        [⟨"web\r1", " 15.0", "ubu\"ntu", "18\n04", [⟨"apache,2", "1.0"⟩]⟩]).Report =
      some [nodesTableHeaders,
        ["web\r1", " 15.0", "ubu\"ntu v18\n04", "apache,2(1.0)"]] ∧
    csvReadAll (MakeCookbooksReportCSV (some ⟨sampleRecords, true⟩)).Report =
      some (cookbooksTableHeaders true :: sampleRecords.flatMap (specCookbookRows true)) :=
  have h := csv_round_trip
    [⟨"web\r1", " 15.0", "ubu\"ntu", "18\n04", [⟨"apache,2", "1.0"⟩]⟩] sampleRecords true
    (by simp) (by decide) (by decide) (by decide)
  ⟨h.1, h.2.2.1⟩

/-! ## The error text of the two cookbook formatters -/

theorem cookbooksCSV_errors_all (runCookstyle : Bool) (records : List CookbookRecord) :
    (MakeCookbooksReportCSV (some ⟨records, runCookstyle⟩)).Errors =
      concatStrings (records.map specRecordErrors) := by
  cases records with
  | nil => rfl
  | cons r rest => exact MakeCookbooksReportCSV_errors runCookstyle (r :: rest) (by simp)

theorem cookbooksTXT_errors_all (runCookstyle : Bool) (records : List CookbookRecord) :
    (MakeCookbooksReportTXT (some ⟨records, runCookstyle⟩)).Errors =
      concatStrings (records.map specRecordErrors) := by
  cases records with
  | nil => rfl
  | cons r rest => rw [MakeCookbooksReportTXT_eq runCookstyle (r :: rest) (by simp)]

theorem specRecordErrors_congr (r r' : CookbookRecord) (h : sameErrorData r r') :
    specRecordErrors r = specRecordErrors r' := by
  obtain ⟨h1, h2, h3, h4, h5⟩ := h
  simp only [specRecordErrors, CookbookRecord.Errors, h1, h2, h3, h4, h5]

theorem map_specRecordErrors_congr (records records' : List CookbookRecord)
    (h : List.Forall₂ sameErrorData records records') :
    records.map specRecordErrors = records'.map specRecordErrors := by
  induction h with
  | nil => rfl
  | cons hhead _ ih => simp only [List.map_cons, specRecordErrors_congr _ _ hhead, ih]

/-- Claim C21: for every status, nil included, `MakeCookbooksReportCSV` and
`MakeCookbooksReportTXT` return the same error text; and two statuses whose
records agree pairwise on `Name`, `Version` and the three error slots get the
same error text from both formatters, whatever their `RunCookstyle`, and the
`Nodes` and `Files` of their records. -/
theorem cookbooks_errors_agree :
    (∀ state : Option CookbooksStatus,
      (MakeCookbooksReportCSV state).Errors = (MakeCookbooksReportTXT state).Errors) ∧
    (∀ (records records' : List CookbookRecord) (runCookstyle runCookstyle' : Bool),
      List.Forall₂
        (fun r r' => r.Name = r'.Name ∧ r.Version = r'.Version ∧
          r.DownloadError = r'.DownloadError ∧ r.UsageLookupError = r'.UsageLookupError ∧
          r.CookstyleError = r'.CookstyleError) records records' →
      (MakeCookbooksReportCSV (some ⟨records, runCookstyle⟩)).Errors =
        (MakeCookbooksReportCSV (some ⟨records', runCookstyle'⟩)).Errors ∧
      (MakeCookbooksReportTXT (some ⟨records, runCookstyle⟩)).Errors =
        (MakeCookbooksReportTXT (some ⟨records', runCookstyle'⟩)).Errors ∧
      (MakeCookbooksReportCSV (some ⟨records, runCookstyle⟩)).Errors =
        (MakeCookbooksReportTXT (some ⟨records', runCookstyle'⟩)).Errors) := by
  refine ⟨?_, ?_⟩
  · intro state
    cases state with
    | none => rfl
    | some state =>
      obtain ⟨records, runCookstyle⟩ := state
      rw [cookbooksCSV_errors_all, cookbooksTXT_errors_all]
  · intro records records' runCookstyle runCookstyle' h
    have hmap := map_specRecordErrors_congr records records' h
    simp only [cookbooksCSV_errors_all, cookbooksTXT_errors_all, hmap, and_self]

theorem cookbooks_errors_agree_witness :
    (MakeCookbooksReportCSV (some ⟨[sampleUsageRecord], true⟩)).Errors =
      (MakeCookbooksReportTXT (some
        ⟨[{ sampleUsageRecord with Nodes := ["node-9"], Files := [] }], false⟩)).Errors :=
  (cookbooks_errors_agree.2 [sampleUsageRecord]
    [{ sampleUsageRecord with Nodes := ["node-9"], Files := [] }] true false
    (List.Forall₂.cons ⟨rfl, rfl, rfl, rfl, rfl⟩ List.Forall₂.nil)).2.2

/-! ## The error text of the node formatters -/

/-- Claim C22: for every sequence of node records, empty or not, the error text
returned by `MakeNodesReportCSV` and by `MakeNodesReportTXT` is the empty
string. -/
theorem nodes_formatters_no_errors (records : List NodeReportItem) :
    (MakeNodesReportCSV records).Errors = "" ∧ (MakeNodesReportTXT records).Errors = "" := by
  unfold MakeNodesReportCSV MakeNodesReportTXT
  by_cases h : records.length = 0 <;> simp [h]

/-! ## Overriding credentials from the flags -/

/-- Claim C24: after the override function is applied to the credentials `c`,
`ClientName` is the `client_name` flag if the flag is not empty and is as in
`c` otherwise, and likewise `ClientKey` for the `client_key` flag and
`ChefServerUrl` for the `chef_server_url` flag; the other fields are as in
`c`; with the three flags empty the result is `c`; and applying the function
twice gives what applying it once gives. -/
theorem overrideCredentials_frame {Rest : Type} (globalFlags : GlobalFlags)
    (c : Credentials Rest) :
    (overrideCredentials globalFlags c).ClientName =
      (if globalFlags.clientName ≠ "" then globalFlags.clientName else c.ClientName) ∧
    (overrideCredentials globalFlags c).ClientKey =
      (if globalFlags.clientKey ≠ "" then globalFlags.clientKey else c.ClientKey) ∧
    (overrideCredentials globalFlags c).ChefServerUrl =
      (if globalFlags.chefServerURL ≠ "" then globalFlags.chefServerURL
        else c.ChefServerUrl) ∧
    (overrideCredentials globalFlags c).rest = c.rest ∧
    (globalFlags.clientName = "" → globalFlags.clientKey = "" →
      globalFlags.chefServerURL = "" → overrideCredentials globalFlags c = c) ∧
    overrideCredentials globalFlags (overrideCredentials globalFlags c) =
      overrideCredentials globalFlags c := by
  unfold overrideCredentials
  by_cases h1 : globalFlags.clientName = "" <;> by_cases h2 : globalFlags.clientKey = "" <;>
    by_cases h3 : globalFlags.chefServerURL = "" <;> simp [h1, h2, h3]

theorem overrideCredentials_frame_witness :
    overrideCredentials ⟨"", "", "", "", "default", false⟩
        (⟨"admin", "/keys/admin.pem", "https://chef.example/organizations/acme", ()⟩ :
          Credentials Unit) =
      ⟨"admin", "/keys/admin.pem", "https://chef.example/organizations/acme", ()⟩ ∧
    (overrideCredentials ⟨"", "deploy", "", "https://chef.example/organizations/lab",
        "default", false⟩
        (⟨"admin", "/keys/admin.pem", "https://chef.example/organizations/acme", ()⟩ :
          Credentials Unit)).ClientName = "deploy" :=
  ⟨(overrideCredentials_frame ⟨"", "", "", "", "default", false⟩
      (⟨"admin", "/keys/admin.pem", "https://chef.example/organizations/acme", ()⟩ :
        Credentials Unit)).2.2.2.2.1 rfl rfl rfl,
   (overrideCredentials_frame ⟨"", "deploy", "", "https://chef.example/organizations/lab",
      "default", false⟩
      (⟨"admin", "/keys/admin.pem", "https://chef.example/organizations/acme", ()⟩ :
        Credentials Unit)).1.trans (by decide)⟩

/-! ## Lemmas on two runs of the node aggregator -/

theorem safeStringFromMap_of_unshaped (values : MapVal) (key : String)
    (h : (values.index key).isStringOrNil = false) : safeStringFromMap values key = none := by
  unfold safeStringFromMap
  cases hv : values.index key <;>
    simp_all [Value.isStringOrNil, Value.isNil, assertString]

theorem cookbookVersionsLoop_of_unshaped (entries : List (String × Value))
    (h : entries.all cookbookEntryShaped = false) : cookbookVersionsLoop entries = none := by
  induction entries with
  | nil => simp at h
  | cons entry rest ih =>
    obtain ⟨k, x⟩ := entry
    cases hm : assertMap x with
    | none => simp [cookbookVersionsLoop, hm]
    | some inner =>
      by_cases hv : (inner.index "version").isStringOrNil = true
      · have hhead : cookbookEntryShaped (k, x) = true := by
          simp [cookbookEntryShaped, hm, hv]
        have hrest : rest.all cookbookEntryShaped = false := by
          simpa [List.all_cons, hhead] using h
        simp [cookbookVersionsLoop, hm, safeStringFromMap_of_shaped inner "version" hv,
          ih hrest]
      · have hv2 : (inner.index "version").isStringOrNil = false := by simpa using hv
        simp [cookbookVersionsLoop, hm, safeStringFromMap_of_unshaped inner "version" hv2]

theorem cookbookVersionsLoop_eq (entries : List (String × Value)) :
    cookbookVersionsLoop entries =
      if entries.all cookbookEntryShaped = true then some (entries.map specCookbookVersion)
      else none := by
  by_cases h : entries.all cookbookEntryShaped = true
  · simp only [h, if_true]
    exact cookbookVersionsLoop_of_shaped entries h
  · have h2 : entries.all cookbookEntryShaped = false := by simpa using h
    simp only [h, if_false]
    exact cookbookVersionsLoop_of_unshaped entries h2

theorem cookbookVersionsLoop_perm (l₁ l₂ : List (String × Value)) (hp : l₁.Perm l₂) :
    outcomesAgree List.Perm (cookbookVersionsLoop l₁) (cookbookVersionsLoop l₂) := by
  rw [cookbookVersionsLoop_eq l₁, cookbookVersionsLoop_eq l₂]
  by_cases h : l₂.all cookbookEntryShaped = true
  · have h1 := all_shaped_of_perm hp h
    simp only [h, h1, if_true]
    exact hp.map _
  · have h1 : ¬ l₁.all cookbookEntryShaped = true := fun h1 => h (all_shaped_of_perm hp.symm h1)
    simp only [h, h1, if_false]
    trivial

theorem itemsAgree_refl (a : NodeReportItem) : itemsAgree a a :=
  ⟨rfl, rfl, rfl, rfl, List.Perm.refl _⟩

theorem nodeItem_agree (o₁ o₂ : MapOrder) (i : Nat) (v : MapVal) :
    outcomesAgree itemsAgree (nodeItem (o₁.visit i) v) (nodeItem (o₂.visit i) v) := by
  unfold nodeItem
  cases h1 : safeStringFromMap v "name" with
  | none => simp [outcomesAgree]
  | some name =>
    cases h2 : safeStringFromMap v "os" with
    | none => simp [outcomesAgree]
    | some os =>
      cases h3 : safeStringFromMap v "os_version" with
      | none => simp [outcomesAgree]
      | some osVersion =>
        cases h4 : safeStringFromMap v "chef_version" with
        | none => simp [outcomesAgree]
        | some chefVersion =>
          by_cases hc : (v.index "cookbooks").isNil = true
          · simp only [hc, if_true, Option.bind_eq_bind, Option.some_bind, pure]
            exact itemsAgree_refl _
          · cases h5 : assertMap (v.index "cookbooks") with
            | none => simp [hc, outcomesAgree]
            | some cookbooks =>
              have hperm : (o₁.visit i cookbooks.entries).Perm (o₂.visit i cookbooks.entries) :=
                (o₁.perm i _).trans (o₂.perm i _).symm
              have hloop := cookbookVersionsLoop_perm _ _ hperm
              cases h6 : cookbookVersionsLoop (o₁.visit i cookbooks.entries) with
              | none =>
                cases h7 : cookbookVersionsLoop (o₂.visit i cookbooks.entries) with
                | none => simp [hc, h6, h7, outcomesAgree]
                | some b => simp [h6, h7, outcomesAgree] at hloop
              | some a =>
                cases h7 : cookbookVersionsLoop (o₂.visit i cookbooks.entries) with
                | none => simp [h6, h7, outcomesAgree] at hloop
                | some b =>
                  rw [h6, h7] at hloop
                  simp only [hc, h6, h7, Option.bind_eq_bind, Option.some_bind, pure]
                  exact ⟨rfl, rfl, rfl, rfl, hloop⟩

theorem nodesLoop_agree (o₁ o₂ : MapOrder) (rows : List Value) :
    ∀ i : Nat, outcomesAgree (List.Forall₂ itemsAgree) (nodesLoop o₁ i rows)
      (nodesLoop o₂ i rows) := by
  induction rows with
  | nil => intro i; exact List.Forall₂.nil
  | cons element rest ih =>
    intro i
    rw [nodesLoop_cons, nodesLoop_cons]
    cases hd : rowData element with
    | none => trivial
    | some v =>
      by_cases hv : v.isNil = true
      · simp only [hv, if_true]
        exact ih (i + 1)
      · simp only [hv]
        have hitem := nodeItem_agree o₁ o₂ i v
        have hrest := ih (i + 1)
        cases h1 : nodeItem (o₁.visit i) v with
        | none =>
          cases h2 : nodeItem (o₂.visit i) v with
          | none => trivial
          | some b => simp [h1, h2, outcomesAgree] at hitem
        | some a =>
          cases h2 : nodeItem (o₂.visit i) v with
          | none => simp [h1, h2, outcomesAgree] at hitem
          | some b =>
            rw [h1, h2] at hitem
            cases h3 : nodesLoop o₁ (i + 1) rest with
            | none =>
              cases h4 : nodesLoop o₂ (i + 1) rest with
              | none => trivial
              | some bs => simp [h3, h4, outcomesAgree] at hrest
            | some as =>
              cases h4 : nodesLoop o₂ (i + 1) rest with
              | none => simp [h3, h4, outcomesAgree] at hrest
              | some bs =>
                rw [h3, h4] at hrest
                exact List.Forall₂.cons hitem hrest

/-! ## Two runs of `Nodes` over the same response -/

/-- Claim C23, as stated, fails: over the same response, a row with two
cookbooks, a run that visits the `cookbooks` map in one order and a run that
visits it in the other order return different results, and the CSV reports
rendered from them differ. -/
theorem Nodes_depends_on_map_order :
    Nodes ⟨false⟩ (searcherReturning [rowFull]) MapOrder.listed ≠
      Nodes ⟨false⟩ (searcherReturning [rowFull]) MapOrder.backwards ∧
    nodesLoop MapOrder.listed 0 [rowFull] =
      some [⟨"web1", "15.0.300", "ubuntu", "18.04",
        [⟨"apache", "1.0.1"⟩, ⟨"ntp", "3.2.0"⟩]⟩] ∧
    nodesLoop MapOrder.backwards 0 [rowFull] =
      some [⟨"web1", "15.0.300", "ubuntu", "18.04",
        [⟨"ntp", "3.2.0"⟩, ⟨"apache", "1.0.1"⟩]⟩] ∧
    (MakeNodesReportCSV [⟨"web1", "15.0.300", "ubuntu", "18.04",
        [⟨"apache", "1.0.1"⟩, ⟨"ntp", "3.2.0"⟩]⟩]).Report ≠
      (MakeNodesReportCSV [⟨"web1", "15.0.300", "ubuntu", "18.04",
        [⟨"ntp", "3.2.0"⟩, ⟨"apache", "1.0.1"⟩]⟩]).Report := by
  decide

/-- Claim C23, amended: two runs of `Nodes` over the same response agree up to
the order of the entries inside each node's `CookbookVersions`: either both
panic or both return; when they return they return the same error, both a nil
result or both a result sequence, and the two result sequences have the same
length and agree item by item on `Name`, `ChefVersion`, `OS` and `OSVersion`
and, up to their order, on the entries of `CookbookVersions`. -/
theorem Nodes_agree_up_to_cookbook_order (cfg : Reporting) (searcher : PartialSearchInterface)
    (o₁ o₂ : MapOrder) :
    (Nodes cfg searcher o₁ = none ↔ Nodes cfg searcher o₂ = none) ∧
    ∀ r₁ e₁ r₂ e₂, Nodes cfg searcher o₁ = some (r₁, e₁) →
      Nodes cfg searcher o₂ = some (r₂, e₂) →
      e₁ = e₂ ∧ (r₁ = none ↔ r₂ = none) ∧
      ∀ a b, r₁ = some a → r₂ = some b →
        a.length = b.length ∧
        List.Forall₂
          (fun x y => x.Name = y.Name ∧ x.ChefVersion = y.ChefVersion ∧ x.OS = y.OS ∧
            x.OSVersion = y.OSVersion ∧ x.CookbookVersions.Perm y.CookbookVersions) a b := by
  cases hexec : searcher.PartialExec "node" "*:*" nodesQuery with
  | mk pres err =>
    cases err with
    | some e =>
      rw [Nodes_of_exec_error cfg searcher o₁ pres e hexec,
        Nodes_of_exec_error cfg searcher o₂ pres e hexec]
      refine ⟨Iff.rfl, ?_⟩
      intro r₁ e₁ r₂ e₂ h₁ h₂
      simp only [Option.some.injEq, Prod.mk.injEq] at h₁ h₂
      obtain ⟨hr₁, he₁⟩ := h₁
      obtain ⟨hr₂, he₂⟩ := h₂
      refine ⟨he₁.symm.trans he₂, by rw [← hr₁, ← hr₂], ?_⟩
      intro a b ha
      rw [← hr₁] at ha
      exact Option.noConfusion ha
    | none =>
      rw [Nodes_of_exec_ok cfg searcher o₁ pres hexec,
        Nodes_of_exec_ok cfg searcher o₂ pres hexec]
      have hloop := nodesLoop_agree o₁ o₂ pres.Rows 0
      cases h1 : nodesLoop o₁ 0 pres.Rows with
      | none =>
        cases h2 : nodesLoop o₂ 0 pres.Rows with
        | none => simp
        | some bs => simp [h1, h2, outcomesAgree] at hloop
      | some as =>
        cases h2 : nodesLoop o₂ 0 pres.Rows with
        | none => simp [h1, h2, outcomesAgree] at hloop
        | some bs =>
          rw [h1, h2] at hloop
          refine ⟨by simp, ?_⟩
          intro r₁ e₁ r₂ e₂ h₁ h₂
          simp only [Option.map_some', Option.some.injEq, Prod.mk.injEq] at h₁ h₂
          obtain ⟨hr₁, he₁⟩ := h₁
          obtain ⟨hr₂, he₂⟩ := h₂
          refine ⟨he₁.symm.trans he₂, by rw [← hr₁, ← hr₂]; simp, ?_⟩
          intro a b ha hb
          rw [← hr₁] at ha
          rw [← hr₂] at hb
          cases ha
          cases hb
          exact ⟨hloop.length_eq, hloop⟩

theorem Nodes_agree_up_to_cookbook_order_witness :
    List.Forall₂
      (fun x y : NodeReportItem => x.Name = y.Name ∧ x.ChefVersion = y.ChefVersion ∧
        x.OS = y.OS ∧ x.OSVersion = y.OSVersion ∧ x.CookbookVersions.Perm y.CookbookVersions)
      [⟨"web1", "15.0.300", "ubuntu", "18.04", [⟨"apache", "1.0.1"⟩, ⟨"ntp", "3.2.0"⟩]⟩]
      [⟨"web1", "15.0.300", "ubuntu", "18.04", [⟨"ntp", "3.2.0"⟩, ⟨"apache", "1.0.1"⟩]⟩] :=
  (((Nodes_agree_up_to_cookbook_order ⟨false⟩ (searcherReturning [rowFull]) MapOrder.listed
    MapOrder.backwards).2 _ _ _ _ rfl rfl).2.2 _ _ rfl rfl).2

end ChefAnalyze
